import Mathlib

/-!
Verification development for the conversation-extraction core of
`mcp-server-cursorshare` (src/src/extractor.ts).

The source file contains two historical snapshots of the extractor:
* snapshot 1 (lines 1-1235): the SQLite/db-path extractor, with a
  `determineRole` that includes numeric `type` aliases (1 → user, 2 → assistant);
* snapshot 2 (lines 1236-1892): the in-memory/structural extractor, whose
  `determineRole` has no numeric aliases, plus `findMessagesRecursively`.

We shallow-embed JavaScript values as an inductive `Json` type, JS strings
as `List Char`, and JS exceptions (TypeError on property access of
null/undefined, `.trim()`/`.substring()` on non-strings) as `Except JsErr`.
Functions from snapshot 1 live in namespace `Db`, functions from snapshot 2
in namespace `St`; character-identical functions are defined once.
-/

set_option maxHeartbeats 1000000

/-- JS error channel: the error message of a thrown exception. -/
abbrev JsErr := List Char

/-- Shallow embedding of the JS values the extractor manipulates.
`null` also stands for `undefined`; numbers are modelled as integers
(the code only compares and subtracts epoch timestamps and small tags);
strings are lists of characters; object fields are in insertion order,
as JS preserves it. -/
inductive Json where
  | null : Json
  | bool : Bool → Json
  | num : Int → Json
  | str : List Char → Json
  | arr : List Json → Json
  | obj : List (String × Json) → Json

/-- Shorthand for a JS string literal value. -/
def jstr (s : String) : Json := Json.str s.toList

/-- JS truthiness of a value (`Boolean(v)`). -/
def jsTruthy : Json → Bool
  | Json.null => false
  | Json.bool b => b
  | Json.num n => n ≠ 0
  | Json.str s => !s.isEmpty
  | Json.arr _ => true
  | Json.obj _ => true

/-- JS truthiness of a possibly-undefined value (`none` = `undefined`). -/
def jsTruthyO : Option Json → Bool
  | none => false
  | some j => jsTruthy j

/-- Models `typeof v === 'object'` (true for objects, arrays and `null` in JS). -/
def isObjLike : Json → Bool
  | Json.arr _ => true
  | Json.obj _ => true
  | Json.null => true
  | _ => false

/-- First-match association-list lookup (JS objects have unique keys;
this models `o[k]`, yielding `none` for `undefined`). -/
def lookupField : List (String × Json) → String → Option Json
  | [], _ => none
  | (k', v) :: rest, k => if k' = k then some v else lookupField rest k

/-- Property access `j[k]` on a value that is known not to be
null/undefined (objects yield their field, every other non-null value
yields `undefined`).  Only used where the source has already
established the receiver is non-null. -/
def jsGet : Json → String → Option Json
  | Json.obj fs, k => lookupField fs k
  | _, _ => none

/-- Property access `j[k]` in full JS semantics: throws a TypeError when
the receiver is `null`/`undefined`, otherwise as `jsGet`. -/
def jsGetFieldE (j : Json) (k : String) : Except JsErr (Option Json) :=
  match j with
  | Json.null => Except.error "TypeError".toList
  | _ => Except.ok (jsGet j k)

/-- Whitespace characters removed by `String.prototype.trim` (the common
ASCII subset suffices for this development). -/
def jsWhitespace (c : Char) : Bool :=
  c = ' ' || c = '\t' || c = '\n' || c = '\r' || c = '\x0b' || c = '\x0c'

/-- Models `s.trim()` on a JS string. -/
def jsTrim (s : List Char) : List Char :=
  ((s.dropWhile jsWhitespace).reverse.dropWhile jsWhitespace).reverse

/-- The normalized message record (`FormattedMessage` in the source).
The TypeScript type annotates `role`/`content` as strings, but the
untyped runtime can store arbitrary values in them (e.g. the
chat-history parser surfaces `msg.role` verbatim), so both are `Json`.
`timestamp` is optional. -/
structure FMessage where
  role : Json
  content : Json
  timestamp : Option Json

/-- Collapse a caught exception into the `return []` of a
`try { ... } catch { ... } return []` block. -/
def runCatch (e : Except JsErr (List FMessage)) : List FMessage :=
  match e with
  | Except.ok l => l
  | Except.error _ => []

/-- The shared filter `msg.content && msg.content.trim() !== ""` applied to
one computed content value: falsy contents are dropped, string contents are
kept iff their trim is non-empty, and calling `.trim()` on any other truthy
value throws a TypeError. -/
def contentKeepE (c : Json) : Except JsErr Bool :=
  if jsTruthy c then
    match c with
    | Json.str s => Except.ok (!(jsTrim s).isEmpty)
    | _ => Except.error "TypeError".toList
  else
    Except.ok false

/-- Models `.filter(msg => msg.content && msg.content.trim() !== "")` over a
mapped message list, with the possible TypeError. -/
def filterMessagesE : List FMessage → Except JsErr (List FMessage)
  | [] => Except.ok []
  | m :: rest => do
    let b ← contentKeepE m.content
    let r ← filterMessagesE rest
    pure (if b then m :: r else r)

/-- Models `xs.map(f).filter(contentKeep)` inside a `try`/`catch` that yields `[]`. -/
def mapFilterCatch (f : Json → Except JsErr FMessage) (xs : List Json) :
    List FMessage :=
  runCatch (do
    let mapped ← xs.mapM f
    filterMessagesE mapped)

example : jsTrim "  ab ".toList = "ab".toList := by decide
example : jsTruthy (jstr "") = false := rfl
example : contentKeepE (jstr " x ") = Except.ok true := rfl
example : contentKeepE (Json.num 5) = Except.error "TypeError".toList := rfl

/-! ## Shared content coercions -/

/-- Models `o === 's'` for a possibly-undefined value against a string literal. -/
def optIsStr (o : Option Json) (s : String) : Bool :=
  match o with
  | some (Json.str t) => t = s.toList
  | _ => false

/-- Models `o === n` against a numeric literal. -/
def optIsNum (o : Option Json) (n : Int) : Bool :=
  match o with
  | some (Json.num m) => m = n
  | _ => false

/-- Models `o === true`. -/
def optIsTrue (o : Option Json) : Bool :=
  match o with
  | some (Json.bool b) => b
  | _ => false

/-- Models `o === false`. -/
def optIsFalse (o : Option Json) : Bool :=
  match o with
  | some (Json.bool b) => !b
  | _ => false

/-- Models `a || b` on JS values where `a` may be undefined. -/
def jsOr (a : Option Json) (b : Json) : Json :=
  match a with
  | some v => if jsTruthy v then v else b
  | none => b

/-- Models `a || b` where both operands may be undefined. -/
def jsOrO (a b : Option Json) : Option Json :=
  if jsTruthyO a then a else b

/-- The optional chain `o?.k`: undefined when the receiver is
null/undefined, otherwise the property. -/
def jsOptChain (o : Option Json) (k : String) : Option Json :=
  match o with
  | some Json.null => none
  | some w => jsGet w k
  | none => none

/-- One content part of an array-shaped `content`:
`typeof part === 'string' ? part : (part && typeof part.text === 'string' ? part.text : '')`. -/
def coercePartText (part : Json) : List Char :=
  match part with
  | Json.str s => s
  | _ =>
    if jsTruthy part then
      match jsGet part "text" with
      | some (Json.str t) => t
      | _ => []
    else []

/-- Models `parts.join('\n')`. -/
def joinNL (xs : List (List Char)) : List Char := List.intercalate ['\n'] xs

/-- The four-branch content coercion of the conversation / bubbles /
messages-history parsers: string `content`, string `text`, string
`content.text`, else array `content` joined with newlines, else `''`. -/
def coerceContentFull (msg : Json) : List Char :=
  match jsGet msg "content" with
  | some (Json.str s) => s
  | c =>
    match jsGet msg "text" with
    | some (Json.str t) => t
    | _ =>
      match c with
      | some cv =>
        if jsTruthy cv then
          match jsGet cv "text" with
          | some (Json.str u) => u
          | _ =>
            match cv with
            | Json.arr ps => joinNL (ps.map coercePartText)
            | _ => []
        else []
      | none => []

/-- The three-branch coercion of the flat-array parser (no array join). -/
def coerceContent3 (msg : Json) : List Char :=
  match jsGet msg "content" with
  | some (Json.str s) => s
  | c =>
    match jsGet msg "text" with
    | some (Json.str t) => t
    | _ =>
      match c with
      | some cv =>
        if jsTruthy cv then
          match jsGet cv "text" with
          | some (Json.str u) => u
          | _ => []
        else []
      | none => []

/-- Coercion of `cursorContext.messages` records:
string `content`, string `content.text`, string `message`. -/
def coerceCursorMsg (msg : Json) : List Char :=
  match jsGet msg "content" with
  | some (Json.str s) => s
  | c =>
    match c with
    | some cv =>
      if jsTruthy cv then
        match jsGet cv "text" with
        | some (Json.str u) => u
        | _ =>
          match jsGet msg "message" with
          | some (Json.str m) => m
          | _ => []
      else
        match jsGet msg "message" with
        | some (Json.str m) => m
        | _ => []
    | none =>
      match jsGet msg "message" with
      | some (Json.str m) => m
      | _ => []

/-- Coercion of `cursorContext.chat.messages` records:
string `content`, string `content.text`. -/
def coerceCursorChat (msg : Json) : List Char :=
  match jsGet msg "content" with
  | some (Json.str s) => s
  | c =>
    match c with
    | some cv =>
      if jsTruthy cv then
        match jsGet cv "text" with
        | some (Json.str u) => u
        | _ => []
      else []
    | none => []

/-- The chat-history-family coercion, which can surface non-string values:
`typeof msg.content === 'string' ? msg.content
 : (msg.content && msg.content.text ? msg.content.text : (msg.text || ""))`. -/
def chCoerceContent (msg : Json) : Json :=
  match jsGet msg "content" with
  | some (Json.str s) => Json.str s
  | c =>
    let viaText : Option Json :=
      match c with
      | some cv =>
        if jsTruthy cv then
          match jsGet cv "text" with
          | some tv => if jsTruthy tv then some tv else none
          | none => none
        else none
      | none => none
    match viaText with
    | some tv => tv
    | none =>
      match jsGet msg "text" with
      | some tv => if jsTruthy tv then tv else Json.str []
      | none => Json.str []

/-- The db-snapshot coercion of `processChatData`/`processComposerContent`:
`typeof msg.text === 'string' ? msg.text
 : (typeof msg.content === 'string' ? msg.content : "")`. -/
def dbCoerceContent (msg : Json) : List Char :=
  match jsGet msg "text" with
  | some (Json.str t) => t
  | _ =>
    match jsGet msg "content" with
    | some (Json.str s) => s
    | _ => []

/-- Models `msg.timestamp ? new Date(msg.timestamp) : undefined`
(`new Date` modelled as the identity on the stored value). -/
def jsTimestamp (msg : Json) : Option Json :=
  match jsGet msg "timestamp" with
  | some t => if jsTruthy t then some t else none
  | none => none

/-! ## Truncation policy (identical in both snapshots,
lines 523-535 and 1747-1759) -/

/-- The fixed configuration cap (`MAX_LENGTH` in `truncateLongMessages`). -/
def MAX_LENGTH : Nat := 100000

/-- The localized truncation marker appended by `truncateLongMessages`. -/
def truncMarker : List Char := "... (内容已截断)".toList

/-- The JS `.length` property of a content value (`undefined` on
primitives without one). -/
def jsLengthProp : Json → Option Nat
  | Json.str s => some s.length
  | Json.arr xs => some xs.length
  | _ => none

/-- Models `c.length > MAX_LENGTH` with `undefined > n` being false. -/
def lenGtMax (c : Json) : Bool :=
  match jsLengthProp c with
  | some n => decide (n > MAX_LENGTH)
  | none => false

/-- One step of `truncateLongMessages`:
`if (msg.content && msg.content.length > MAX_LENGTH)` replace the content
by its `substring(0, MAX_LENGTH)` plus the marker; `.substring` on a
non-string value with a large `.length` (an array) throws. -/
def truncateOne (msg : FMessage) : Except JsErr FMessage :=
  if jsTruthy msg.content && lenGtMax msg.content then
    match msg.content with
    | Json.str s =>
        Except.ok { msg with content := Json.str (s.take MAX_LENGTH ++ truncMarker) }
    | _ => Except.error "TypeError".toList
  else
    Except.ok msg

/-- Models `truncateLongMessages` (lines 523-535 = lines 1747-1759). -/
def truncateLongMessages (msgs : List FMessage) : Except JsErr (List FMessage) :=
  msgs.mapM truncateOne

/-! ## Snapshot 2: the structural (in-memory) extractor, lines 1236-1892 -/

namespace St

/-- Models `determineRole` of the structural snapshot (lines 1273-1303): explicit
canonical `role`, then boolean `isUser`, then string `type` aliases, then
string `sender` aliases, default `user`.  This snapshot has **no** numeric
`type` branch.  Defined on a receiver known to be non-null. -/
def determineRoleCore (msg : Json) : List Char :=
  match jsGet msg "role" with
  | some (Json.str s) =>
    if s = "user".toList || s = "assistant".toList ||
       s = "system".toList || s = "function".toList then s
    else determineRoleRest msg
  | _ => determineRoleRest msg
where
  determineRoleRest (msg : Json) : List Char :=
    let isUser := jsGet msg "isUser"
    if optIsTrue isUser then "user".toList
    else if optIsFalse isUser then "assistant".toList
    else
      let ty := jsGet msg "type"
      if optIsStr ty "user" || optIsStr ty "human" then "user".toList
      else if optIsStr ty "assistant" || optIsStr ty "ai" || optIsStr ty "bot" then
        "assistant".toList
      else
        let sender := jsGet msg "sender"
        if optIsStr sender "user" || optIsStr sender "human" then "user".toList
        else if optIsStr sender "assistant" || optIsStr sender "ai" ||
                optIsStr sender "bot" then "assistant".toList
        else "user".toList

/-- Models `determineRole` with full JS semantics: the very first property access
(`msg.role`) throws a TypeError when the argument is null/undefined. -/
def determineRoleE (msg : Json) : Except JsErr (List Char) :=
  match msg with
  | Json.null => Except.error "TypeError".toList
  | _ => Except.ok (determineRoleCore msg)

/-- Record mapper of `extractFromConversation` / `extractFromMessagesOrHistory`
(role via `determineRole`, content via the four-branch coercion). -/
def mapMsgFull (msg : Json) : Except JsErr FMessage := do
  let role ← determineRoleE msg
  pure ⟨Json.str role, Json.str (coerceContentFull msg), none⟩

/-- Record mapper of `extractFromArrayContext` (three-branch coercion). -/
def mapMsg3 (msg : Json) : Except JsErr FMessage := do
  let role ← determineRoleE msg
  pure ⟨Json.str role, Json.str (coerceContent3 msg), none⟩

/-- Record mapper of `cursorContext.messages`. -/
def mapMsgCursorA (msg : Json) : Except JsErr FMessage := do
  let role ← determineRoleE msg
  pure ⟨Json.str role, Json.str (coerceCursorMsg msg), none⟩

/-- Record mapper of `cursorContext.chat.messages`. -/
def mapMsgCursorB (msg : Json) : Except JsErr FMessage := do
  let role ← determineRoleE msg
  pure ⟨Json.str role, Json.str (coerceCursorChat msg), none⟩

/-- Record mapper of `extractFromChatHistory`'s main branch:
`role: msg.role || (msg.isUser ? 'user' : 'assistant')` — a truthy `role`
is surfaced verbatim — with the chat-history content coercion. -/
def mapMsgCH (msg : Json) : Except JsErr FMessage := do
  let r ← jsGetFieldE msg "role"
  let role : Json :=
    match r with
    | some rv =>
      if jsTruthy rv then rv
      else if jsTruthyO (jsGet msg "isUser") then jstr "user" else jstr "assistant"
    | none =>
      if jsTruthyO (jsGet msg "isUser") then jstr "user" else jstr "assistant"
  pure ⟨role, chCoerceContent msg, none⟩

/-- Record mapper of `extractFromBubbles`:
`bubble.role || (bubble.isUser ? 'user' : 'assistant')` with the
four-branch content coercion. -/
def mapMsgBubble (b : Json) : Except JsErr FMessage := do
  let r ← jsGetFieldE b "role"
  let role : Json :=
    match r with
    | some rv =>
      if jsTruthy rv then rv
      else if jsTruthyO (jsGet b "isUser") then jstr "user" else jstr "assistant"
    | none =>
      if jsTruthyO (jsGet b "isUser") then jstr "user" else jstr "assistant"
  pure ⟨role, Json.str (coerceContentFull b), none⟩

/-- Record mapper of `extractFromLocalChatHistory` / `processLocalContent`
array branches (role via `determineRole`, chat-history content coercion). -/
def mapMsgLocal (msg : Json) : Except JsErr FMessage := do
  let role ← determineRoleE msg
  pure ⟨Json.str role, chCoerceContent msg, none⟩

/-- Models `processLocalContent` (lines 1435-1476; identical text at 211-252):
`messages` array branch, `conversation` array branch, then the single-text
fallback, which surfaces the text **without any emptiness filter**. -/
def processLocalContent (content : Json) : List FMessage :=
  if !(jsTruthy content) then []
  else
    runCatch (do
      match jsGet content "messages" with
      | some (Json.arr xs) => do
          let mapped ← xs.mapM mapMsgLocal
          filterMessagesE mapped
      | _ =>
        match jsGet content "conversation" with
        | some (Json.arr xs) => do
            let mapped ← xs.mapM mapMsgLocal
            filterMessagesE mapped
        | _ =>
          match jsGet content "text", content with
          | some (Json.str t), _ => pure [⟨jstr "user", Json.str t, none⟩]
          | _, Json.str s => pure [⟨jstr "user", Json.str s, none⟩]
          | _, _ => pure [])

/-- Models `extractFromLocalChatHistory` (lines 1378-1430): requires a
workspace/composer id signal, then delegates to `processLocalContent`
or flat-maps `conversations[*].messages`. The whole body is inside a
`try` that returns `[]`. -/
def extractFromLocalChatHistory (ctx : Json) : List FMessage :=
  runCatch (do
    let wsIdA ← jsGetFieldE ctx "workspaceId"
    let ws ← jsGetFieldE ctx "workspace"
    let workspaceId : Option Json := jsOrO wsIdA (jsOptChain ws "id")
    let compIdA ← jsGetFieldE ctx "composerId"
    let comp ← jsGetFieldE ctx "composer"
    let composerId : Option Json := jsOrO compIdA (jsOptChain comp "id")
    if !(jsTruthyO workspaceId) && !(jsTruthyO composerId) then pure []
    else do
      let lcBranch : Except JsErr (List FMessage) :=
        match jsGet ctx "conversations" with
        | some (Json.arr convs) => do
            let parts ← convs.mapM (fun conversation => do
              let ms ← jsGetFieldE conversation "messages"
              match ms with
              | some (Json.arr xs) => xs.mapM mapMsgLocal
              | _ => pure [])
            let messages ← filterMessagesE parts.flatten
            pure (if messages.length > 0 then messages else [])
        | _ => pure []
      match jsGet ctx "localContent" with
      | some lcv => if jsTruthy lcv then pure (processLocalContent lcv) else lcBranch
      | none => lcBranch)

/-- Models `extractFromChatHistory` (lines 1340-1373; identical text at 116-149):
maps a `chatHistory` array, else delegates to the local-storage path. -/
def extractFromChatHistory (ctx : Json) : Except JsErr (List FMessage) := do
  let ch ← jsGetFieldE ctx "chatHistory"
  match ch with
  | some (Json.arr xs) =>
      let messages := mapFilterCatch mapMsgCH xs
      pure (if messages.length > 0 then messages else [])
  | _ => pure (extractFromLocalChatHistory ctx)

/-- Models `extractFromConversation` (lines 1481-1527). -/
def extractFromConversation (ctx : Json) : Except JsErr (List FMessage) := do
  let conv ← jsGetFieldE ctx "conversation"
  match conv with
  | some (Json.arr xs) =>
    if xs.length = 0 then pure []
    else
      let messages := mapFilterCatch mapMsgFull xs
      pure (if messages.length > 0 then messages else [])
  | _ => pure []

/-- Models `extractFromBubbles` (lines 1532-1577; identical text at 308-353). -/
def extractFromBubbles (ctx : Json) : Except JsErr (List FMessage) := do
  let bs ← jsGetFieldE ctx "bubbles"
  match bs with
  | some (Json.arr xs) =>
    if xs.length = 0 then pure []
    else
      let messages := mapFilterCatch mapMsgBubble xs
      pure (if messages.length > 0 then messages else [])
  | _ => pure []

/-- Models `extractFromMessagesOrHistory` (lines 1582-1628):
`context.messages || context.history || []`. -/
def extractFromMessagesOrHistory (ctx : Json) : Except JsErr (List FMessage) := do
  let ms ← jsGetFieldE ctx "messages"
  let hs ← jsGetFieldE ctx "history"
  let messageArray : Json := jsOr ms (jsOr hs (Json.arr []))
  match messageArray with
  | Json.arr xs =>
    if xs.length = 0 then pure []
    else
      let messages := mapFilterCatch mapMsgFull xs
      pure (if messages.length > 0 then messages else [])
  | _ => pure []

/-- Models `extractFromArrayContext` (lines 1633-1670): the context itself is the
message array. -/
def extractFromArrayContext (ctx : Json) : Except JsErr (List FMessage) :=
  match ctx with
  | Json.arr xs =>
    if xs.length = 0 then pure []
    else
      let messages := mapFilterCatch mapMsg3 xs
      pure (if messages.length > 0 then messages else [])
  | _ => pure []

/-- Models `extractFromCursorSpecific` (lines 1675-1742): `cursorContext.messages`
then `cursorContext.chat.messages`, each mapped and filtered inside a
`try` that falls back to `[]`. -/
def extractFromCursorSpecific (ctx : Json) : Except JsErr (List FMessage) := do
  let cc ← jsGetFieldE ctx "cursorContext"
  match cc with
  | some ccv =>
    if jsTruthy ccv then
      let chatBranch : Except JsErr (List FMessage) :=
        match jsGet ccv "chat" with
        | some chat =>
          if jsTruthy chat then
            match jsGet chat "messages" with
            | some (Json.arr ys) => do
                let mapped ← ys.mapM mapMsgCursorB
                let messages ← filterMessagesE mapped
                pure (if messages.length > 0 then messages else [])
            | _ => pure []
          else pure []
        | none => pure []
      pure (runCatch (do
        match jsGet ccv "messages" with
        | some (Json.arr xs) => do
            let mapped ← xs.mapM mapMsgCursorA
            let messages ← filterMessagesE mapped
            if messages.length > 0 then pure messages else chatBranch
        | _ => chatBranch))
    else pure []
  | none => pure []

/-- Models `path.split('.')`. -/
def jsSplitDot : List Char → List (List Char)
  | [] => [[]]
  | c :: rest =>
    match jsSplitDot rest with
    | [] => [if c = '.' then [] else [c]]
    | seg :: segs => if c = '.' then [] :: seg :: segs else (c :: seg) :: segs

/-- The per-item candidate check of `findMessagesRecursively` (lines
1829-1859): a truthy object-like item exposing both a role-like field
(`role`/`type`/`sender`/`isUser`) and a content-like field
(`content`/`text`/`message`) is mapped to a message, otherwise `null`. -/
def msgCandidate (item : Json) : Option FMessage :=
  if jsTruthy item && isObjLike item then
    let hasRole := (jsGet item "role").isSome || (jsGet item "type").isSome ||
                   (jsGet item "sender").isSome || (jsGet item "isUser").isSome
    let hasContent := (jsGet item "content").isSome || (jsGet item "text").isSome ||
                      (jsGet item "message").isSome
    if hasRole && hasContent then
      let role := determineRoleCore item
      let content : List Char :=
        match jsGet item "content" with
        | some (Json.str s) => s
        | c =>
          match jsGet item "text" with
          | some (Json.str t) => t
          | _ =>
            match jsGet item "message" with
            | some (Json.str m) => m
            | _ =>
              match c with
              | some cv =>
                if jsTruthy cv then
                  match jsGet cv "text" with
                  | some (Json.str u) => u
                  | _ => []
                else []
              | none => []
      some ⟨Json.str role, Json.str content, none⟩
    else none
  else none

/-- Models `.filter(item => item !== null && item.content && item.content.trim() !== "")`
over the candidate list; the computed content is always a string here, so
no TypeError can arise. -/
def recCandidates (xs : List Json) : List FMessage :=
  (xs.map msgCandidate).filterMap (fun o =>
    match o with
    | some m =>
      match m.content with
      | Json.str s => if !s.isEmpty && !(jsTrim s).isEmpty then some m else none
      | _ => none
    | none => none)

mutual

/-- Models `findMessagesRecursively` (lines 1815-1892): bounded-depth search.
The depth guard counts the `'.'`-separated segments of the textual path;
array descent appends `"[i]"`, which adds no dot. -/
def findMessagesRecursively (obj : Json) (path : List Char) : List FMessage :=
  if !(jsTruthy obj) || !(isObjLike obj) then []
  else if (jsSplitDot path).length > 10 then []
  else
    match obj with
    | Json.arr [] => []
    | Json.arr (x :: xs) =>
        let messages := recCandidates (x :: xs)
        if messages.length > 1 then messages
        else findInArray (x :: xs) path 0
    | Json.obj fs => findInFields fs path
    | _ => []

/-- The element loop of `findMessagesRecursively` over an array that was
not itself a message array: first non-empty recursive result wins. -/
def findInArray (xs : List Json) (path : List Char) (i : Nat) : List FMessage :=
  match xs with
  | [] => []
  | x :: rest =>
    if jsTruthy x && isObjLike x then
      let r := findMessagesRecursively x (path ++ '[' :: ((toString i).toList ++ [']']))
      if r.length > 0 then r else findInArray rest path (i + 1)
    else findInArray rest path (i + 1)

/-- The `for..in` property loop of `findMessagesRecursively` over an
object node. -/
def findInFields (fs : List (String × Json)) (path : List Char) : List FMessage :=
  match fs with
  | [] => []
  | (k, v) :: rest =>
    if jsTruthy v && isObjLike v then
      let r := findMessagesRecursively v (path ++ '.' :: k.toList)
      if r.length > 0 then r else findInFields rest path
    else findInFields rest path

end

/-- Models `extractConversation` of the structural snapshot (lines 1764-1809):
null guard, the six shape parsers in priority order, then the recursive
search; every returned list passes through `truncateLongMessages`. -/
def extractConversation (ctx : Json) : Except JsErr (List FMessage) := do
  if !(jsTruthy ctx) then pure []
  else do
    let m1 ← extractFromCursorSpecific ctx
    if m1.length > 0 then truncateLongMessages m1
    else do
      let m2 ← extractFromChatHistory ctx
      if m2.length > 0 then truncateLongMessages m2
      else do
        let m3 ← extractFromConversation ctx
        if m3.length > 0 then truncateLongMessages m3
        else do
          let m4 ← extractFromBubbles ctx
          if m4.length > 0 then truncateLongMessages m4
          else do
            let m5 ← extractFromMessagesOrHistory ctx
            if m5.length > 0 then truncateLongMessages m5
            else do
              let m6 ← extractFromArrayContext ctx
              if m6.length > 0 then truncateLongMessages m6
              else do
                let m7 := findMessagesRecursively ctx "root".toList
                truncateLongMessages m7

end St

/-! ## Stable descending sort

JS `Array.prototype.sort` with the comparator `(a, b) => key(b) - key(a)`
is a stable descending sort by `key`; we model it as a stable insertion
sort: each element is inserted before the first later element whose key is
not larger, so equal-key elements keep their original relative order. -/

def insertByKeyDesc {α : Type} (key : α → Int) (x : α) : List α → List α
  | [] => [x]
  | y :: ys => if key y ≤ key x then x :: y :: ys else y :: insertByKeyDesc key x ys

def sortByKeyDesc {α : Type} (key : α → Int) : List α → List α
  | [] => []
  | x :: xs => insertByKeyDesc key x (sortByKeyDesc key xs)

/-! ## Snapshot 1: the db-path extractor, lines 1-1235 -/

namespace Db

/-- Models `determineRole` of the db snapshot (lines 45-79): like the structural
one, but the `type` checks additionally map the numeric tags
`1` → user and `2` → assistant. -/
def determineRoleCore (msg : Json) : List Char :=
  match jsGet msg "role" with
  | some (Json.str s) =>
    if s = "user".toList || s = "assistant".toList ||
       s = "system".toList || s = "function".toList then s
    else determineRoleRest msg
  | _ => determineRoleRest msg
where
  determineRoleRest (msg : Json) : List Char :=
    let isUser := jsGet msg "isUser"
    if optIsTrue isUser then "user".toList
    else if optIsFalse isUser then "assistant".toList
    else
      let ty := jsGet msg "type"
      if optIsStr ty "user" || optIsStr ty "human" then "user".toList
      else if optIsStr ty "assistant" || optIsStr ty "ai" || optIsStr ty "bot" then
        "assistant".toList
      else if optIsNum ty 1 then "user".toList
      else if optIsNum ty 2 then "assistant".toList
      else
        let sender := jsGet msg "sender"
        if optIsStr sender "user" || optIsStr sender "human" then "user".toList
        else if optIsStr sender "assistant" || optIsStr sender "ai" ||
                optIsStr sender "bot" then "assistant".toList
        else "user".toList

/-- Models `determineRole` (db snapshot) with the TypeError on a null receiver. -/
def determineRoleE (msg : Json) : Except JsErr (List Char) :=
  match msg with
  | Json.null => Except.error "TypeError".toList
  | _ => Except.ok (determineRoleCore msg)

/-- Record mapper of the db snapshot's local-content array branches. -/
def mapMsgLocal (msg : Json) : Except JsErr FMessage := do
  let role ← determineRoleE msg
  pure ⟨Json.str role, chCoerceContent msg, none⟩

/-- Models `processLocalContent` (lines 211-252): identical text to the
structural snapshot's copy, but bound to the db snapshot's
`determineRole`.  The single-text fallback surfaces the text without any
emptiness filter. -/
def processLocalContent (content : Json) : List FMessage :=
  if !(jsTruthy content) then []
  else
    runCatch (do
      match jsGet content "messages" with
      | some (Json.arr xs) => do
          let mapped ← xs.mapM mapMsgLocal
          filterMessagesE mapped
      | _ =>
        match jsGet content "conversation" with
        | some (Json.arr xs) => do
            let mapped ← xs.mapM mapMsgLocal
            filterMessagesE mapped
        | _ =>
          match jsGet content "text", content with
          | some (Json.str t), _ => pure [⟨jstr "user", Json.str t, none⟩]
          | _, Json.str s => pure [⟨jstr "user", Json.str s, none⟩]
          | _, _ => pure [])

/-- Models `extractFromLocalChatHistory` (lines 154-206). -/
def extractFromLocalChatHistory (ctx : Json) : List FMessage :=
  runCatch (do
    let wsIdA ← jsGetFieldE ctx "workspaceId"
    let ws ← jsGetFieldE ctx "workspace"
    let workspaceId : Option Json := jsOrO wsIdA (jsOptChain ws "id")
    let compIdA ← jsGetFieldE ctx "composerId"
    let comp ← jsGetFieldE ctx "composer"
    let composerId : Option Json := jsOrO compIdA (jsOptChain comp "id")
    if !(jsTruthyO workspaceId) && !(jsTruthyO composerId) then pure []
    else do
      let lcBranch : Except JsErr (List FMessage) :=
        match jsGet ctx "conversations" with
        | some (Json.arr convs) => do
            let parts ← convs.mapM (fun conversation => do
              let ms ← jsGetFieldE conversation "messages"
              match ms with
              | some (Json.arr xs) => xs.mapM mapMsgLocal
              | _ => pure [])
            let messages ← filterMessagesE parts.flatten
            pure (if messages.length > 0 then messages else [])
        | _ => pure []
      match jsGet ctx "localContent" with
      | some lcv => if jsTruthy lcv then pure (processLocalContent lcv) else lcBranch
      | none => lcBranch)

/-- Models `extractFromChatHistory` (lines 116-149): the mapper text is
identical to the structural snapshot's, so `St.mapMsgCH` is reused; the
delegation goes to this snapshot's local-history reader. -/
def extractFromChatHistory (ctx : Json) : Except JsErr (List FMessage) := do
  let ch ← jsGetFieldE ctx "chatHistory"
  match ch with
  | some (Json.arr xs) =>
      let messages := mapFilterCatch St.mapMsgCH xs
      pure (if messages.length > 0 then messages else [])
  | _ => pure (extractFromLocalChatHistory ctx)

/-- Models `extractFromBubbles` (lines 308-353): character-identical to the
structural snapshot's copy (it does not call `determineRole`). -/
def extractFromBubbles : Json → Except JsErr (List FMessage) :=
  St.extractFromBubbles

/-- Record mapper of `processChatData` / `processComposerContent`:
role via this snapshot's `determineRole`, text-first string coercion,
optional timestamp. -/
def mapMsgDb (msg : Json) : Except JsErr FMessage := do
  let role ← determineRoleE msg
  pure ⟨Json.str role, Json.str (dbCoerceContent msg), jsTimestamp msg⟩

/-- The map-and-filter applied to each of the four candidate arrays of
`processChatData` (the source repeats the identical code per branch). -/
def chatMessagesFromArray (xs : List Json) : Except JsErr (List FMessage) := do
  let mapped ← xs.mapM mapMsgDb
  filterMessagesE mapped

/-- The `conversation` branch of `processChatData` (lines 736-746). -/
def pcdConvBranch (data : Json) : Except JsErr (List FMessage) :=
  match jsGet data "conversation" with
  | some (Json.arr xs) => chatMessagesFromArray xs
  | _ => pure []

/-- The `messages` branch of `processChatData` (lines 723-733), falling
through to the `conversation` branch. -/
def pcdMessagesBranch (data : Json) : Except JsErr (List FMessage) :=
  match jsGet data "messages" with
  | some (Json.arr xs) => chatMessagesFromArray xs
  | _ => pcdConvBranch data

/-- The body of the `chats` branch once the first chat session is picked
(lines 706-718): its `messages` array, or fall through. -/
def pcdChatsInner (data chat : Json) : Except JsErr (List FMessage) := do
  let ms ← jsGetFieldE chat "messages"
  match ms with
  | some (Json.arr xs) => chatMessagesFromArray xs
  | _ => pcdMessagesBranch data

/-- The `chats` branch of `processChatData` (lines 700-720): the first
key in insertion order (`Object.keys(data.chats)[0]`; an array exposes
its indices) selects the chat session. -/
def pcdChatsBranch (data : Json) : Except JsErr (List FMessage) :=
  match jsGet data "chats" with
  | some c =>
    if jsTruthy c && isObjLike c then
      match c with
      | Json.obj ((_, chat) :: _) => pcdChatsInner data chat
      | Json.arr (chat :: _) => pcdChatsInner data chat
      | _ => pcdMessagesBranch data
    else pcdMessagesBranch data
  | none => pcdMessagesBranch data

/-- Models `processChatData` (lines 658-754), on an already-parsed record (the
string input branch runs `JSON.parse` first; `processChatDataRaw` below
models a value that fails to parse).  Branch order: non-empty `tabs`
(last tab's `conversation`), `chats` map (first key's `messages`),
`messages`, `conversation`; each missing guard falls through to the next
branch, and the whole body is inside a `try` that returns `[]`. -/
def processChatData (data : Json) : List FMessage :=
  runCatch (do
    if !(jsTruthy data) then pure []
    else
      match jsGet data "tabs" with
      | some (Json.arr ts) =>
        if ts.length > 0 then
          match ts.getLast? with
          | some recentTab => do
            let conv ← jsGetFieldE recentTab "conversation"
            match conv with
            | some (Json.arr cs) => chatMessagesFromArray cs
            | _ => pcdChatsBranch data
          | none => pcdChatsBranch data
        else pcdChatsBranch data
      | _ => pcdChatsBranch data)

/-- A store value handed to `processChatData` as a raw string:
`none` models a string that `JSON.parse` rejects (the parse error is
logged and `[]` returned), `some j` a string parsing to `j`. -/
def processChatDataRaw : Option Json → List FMessage
  | none => []
  | some j => processChatData j

/-- Models `processComposerContent` (lines 995-1047): `conversation` array,
`messages` array, then the single-text fallback
`if (content.text || composer.text)`, which surfaces the text verbatim
without any emptiness filter. -/
def processComposerContent (content composer : Json) : List FMessage :=
  if !(jsTruthy content) then []
  else
    runCatch (do
      match jsGet content "conversation" with
      | some (Json.arr xs) => chatMessagesFromArray xs
      | _ =>
        match jsGet content "messages" with
        | some (Json.arr xs) => chatMessagesFromArray xs
        | _ =>
          let ct := jsGet content "text"
          if jsTruthyO ct then
            match ct with
            | some tv => pure [⟨jstr "user", tv, none⟩]
            | none => pure []
          else do
            let cmt ← jsGetFieldE composer "text"
            if jsTruthyO cmt then
              match cmt with
              | some tv => pure [⟨jstr "user", tv, none⟩]
              | none => pure []
            else pure [])

end Db

/-! ## The db environment model

The db path reads the filesystem and two SQLite stores.  We model the
environment as explicit state: directory listings with the mtime of each
workspace's `state.vscdb` (absent = no database file), and each store as
point lookups plus the (≤ 20 row) results of the `LIKE` scans.  A stored
row's value is a JSON string; `some j` models a value parsing to `j` and
`none` a value `JSON.parse` rejects. -/

structure DbEnv where
  /-- the platform-specific `workspaceStorage` root exists -/
  rootExists : Bool
  /-- workspace directory names with the mtime of their `state.vscdb`
  (in directory-listing order); `none` = the database file is missing -/
  dirs : List (List Char × Option Int)
  /-- the workspace store has an `ItemTable` table -/
  hasItemTable : Bool
  /-- Models `ItemTable` point lookup; `none` = no row with a truthy value -/
  items : List Char → Option (Option Json)
  /-- rows of the chat `LIKE` scan over `ItemTable` -/
  likeScanChat : List (List Char × Option Json)
  /-- the workspace store has a `cursorDiskKV` table -/
  hasCursorKV : Bool
  /-- rows of the `LIKE` scan over `cursorDiskKV` -/
  kvScan : List (List Char × Option Json)
  /-- rows of the composer `LIKE` scan over `ItemTable` -/
  likeScanComposer : List (List Char × Option Json)
  /-- the global `state.vscdb` exists -/
  globalDbExists : Bool
  /-- point lookup in the global store (whichever of the two table names
  is present) -/
  globalItems : List Char → Option (Option Json)

namespace Db

/-- Models `getCursorWorkspacePath` (lines 540-588): resolves the
platform-specific storage root (abstracted here to a fixed name) and
throws a descriptive error when it does not exist. -/
def getCursorWorkspacePath (env : DbEnv) : Except JsErr (List Char) :=
  if env.rootExists then Except.ok "workspaceStorage".toList
  else Except.error "未找到工作区存储路径: workspaceStorage".toList

/-- Models `findRecentWorkspaceId` (lines 593-653): root resolution, directory
listing, mtime ranking of directories that contain `state.vscdb`
(stable descending sort, first entry wins), with descriptive errors for
an empty listing and for no usable workspace. -/
def findRecentWorkspaceId (env : DbEnv) : Except JsErr (List Char) := do
  let _ ← getCursorWorkspacePath env
  if env.dirs.length = 0 then Except.error "未找到任何工作区目录".toList
  else
    let validDirs := env.dirs.filter (fun d => d.2.isSome)
    if validDirs.length = 0 then
      Except.error "未找到任何包含state.vscdb的工作区目录".toList
    else
      match sortByKeyDesc (fun d => (d.2.getD 0)) validDirs with
      | d :: _ => Except.ok d.1
      | [] => Except.error "未找到任何包含state.vscdb的工作区目录".toList

/-- Does the `state.vscdb` of workspace `wsId` exist
(`fs.existsSync(dbPath)`)? -/
def dirDbExists (env : DbEnv) (wsId : List Char) : Bool :=
  match env.dirs.find? (fun d => d.1 == wsId) with
  | some d => d.2.isSome
  | none => false

/-- In-order point probing of a key list:
`if (result?.value) { chatResult = result; break; }`. -/
def probeKeys (keys : List String) (items : List Char → Option (Option Json)) :
    Option (Option Json) :=
  match keys with
  | [] => none
  | k :: rest =>
    match items k.toList with
    | some v => some v
    | none => probeKeys rest items

/-- The known chat-data keys of `readWorkspaceData` (lines 1081-1088). -/
def possibleKeys : List String :=
  ["workbench.panel.chat.view.chat.chatdata",
   "workbench.panel.aichat.view.aichat.chatdata",
   "aichat.chatData", "aichat.history", "chat.history", "chat.data"]

/-- The known composer keys of `findComposerData` (lines 791-799). -/
def composerKeys : List String :=
  ["composer.composerData", "cursor.composerData", "cursorComposerData",
   "composer.data", "workbench.panel.composer.data",
   "workbench.panel.aichat.view.aichat.chatdata",
   "workbench.panel.chat.view.chat.chatdata"]

/-- The chat `LIKE`-scan acceptance loop (lines 1124-1139): first row whose
value parses and exposes a truthy `tabs`/`chats`/`messages`/`conversation`
field; unparseable rows are skipped silently. -/
def scanChatResult : List (List Char × Option Json) → Option (Option Json)
  | [] => none
  | (_, pv) :: rest =>
    match pv with
    | some d =>
      if jsTruthyO (jsGet d "tabs") || jsTruthyO (jsGet d "chats") ||
         jsTruthyO (jsGet d "messages") || jsTruthyO (jsGet d "conversation") then
        some (some d)
      else scanChatResult rest
    | none => scanChatResult rest

/-- The `cursorDiskKV` fallback loop (lines 1154-1179): first row that
parses, looks chat-shaped and yields a non-empty message list. -/
def kvLoop : List (List Char × Option Json) → Option (List FMessage)
  | [] => none
  | (_, pv) :: rest =>
    match pv with
    | some d =>
      if jsTruthyO (jsGet d "tabs") || jsTruthyO (jsGet d "chats") ||
         jsTruthyO (jsGet d "messages") || jsTruthyO (jsGet d "conversation") then
        let messages := processChatData d
        if messages.length > 0 then some messages else kvLoop rest
      else kvLoop rest
    | none => kvLoop rest

/-- The composer `LIKE`-scan acceptance loop (lines 834-847): first row
whose value parses and exposes `allComposers`, `composers`, or is itself
a non-empty array whose head has a truthy `composerId` (a null head makes
the property access throw; the per-row catch skips such a row). -/
def scanComposerResult : List (List Char × Option Json) → Option (Option Json)
  | [] => none
  | (_, pv) :: rest =>
    match pv with
    | some d =>
      if jsTruthyO (jsGet d "allComposers") || jsTruthyO (jsGet d "composers") ||
         (match d with
          | Json.arr (Json.null :: _) => false
          | Json.arr (x :: _) => jsTruthyO (jsGet x "composerId")
          | _ => false) then
        some (some d)
      else scanComposerResult rest
    | none => scanComposerResult rest

/-- Models `(c.lastUpdatedAt || 0)` as the numeric sort key of a composer: a
missing (or non-numeric) field is coerced to `0`. -/
def composerKey (c : Json) : Int :=
  match jsGet c "lastUpdatedAt" with
  | some (Json.num n) => n
  | _ => 0

/-- The composer ordering of `findComposerData` (lines 876-878): keep
valid objects, then the stable sort
`(a, b) => (b.lastUpdatedAt || 0) - (a.lastUpdatedAt || 0)`. -/
def sortedComposers (cs : List Json) : List Json :=
  sortByKeyDesc composerKey (cs.filter (fun c => jsTruthy c && isObjLike c))

/-- Models `sortedComposers[0]` — the composer the resolver picks. -/
def selectRecentComposer (cs : List Json) : Option Json :=
  (sortedComposers cs).head?

/-- Resolution of the composer list (lines 861-872):
`composerData.allComposers || composerData.composers ||` the record
itself when it is a non-empty array; the result must again be a
non-empty array. -/
def resolveComposerList (cd : Json) : Option (List Json) :=
  let al : Option Json :=
    if jsTruthyO (jsGet cd "allComposers") then jsGet cd "allComposers"
    else if jsTruthyO (jsGet cd "composers") then jsGet cd "composers"
    else
      match cd with
      | Json.arr (x :: xs) => some (Json.arr (x :: xs))
      | _ => none
  match al with
  | some (Json.arr xs) => if xs.length > 0 then some xs else none
  | _ => none

/-- Models `recentComposer.composerId || recentComposer.id`. -/
def composerIdOf (c : Json) : Option Json :=
  let a := jsGet c "composerId"
  if jsTruthyO a then a else jsGet c "id"

/-- JS template-literal stringification of the composer id (ids are
strings in practice; primitive values are rendered faithfully). -/
def jsTemplateStr : Json → List Char
  | Json.str s => s
  | Json.num n => (toString n).toList
  | Json.bool b => (toString b).toList
  | Json.null => "null".toList
  | Json.arr _ => []
  | Json.obj _ => "[object Object]".toList

/-- The global-store lookup key `` `composerData:${composerId}` ``. -/
def composerLookupKey (cid : Json) : List Char :=
  "composerData:".toList ++ jsTemplateStr cid

/-- Models `findComposerData` (lines 759-990): workspace-store probe for the
composer index, selection of the most recently updated composer, then a
single point lookup in the global store; every failure path (missing
database, unparseable index, empty index, missing global record) yields
`[]` through the surrounding `try`. -/
def findComposerData (env : DbEnv) (wsId : List Char) : List FMessage :=
  runCatch (do
    let _ ← getCursorWorkspacePath env
    if !(dirDbExists env wsId) then
      Except.error ("未找到数据库文件: ".toList ++ wsId)
    else do
      let composerResult : Option (Option Json) :=
        if env.hasItemTable then
          match probeKeys composerKeys env.items with
          | some v => some v
          | none => scanComposerResult env.likeScanComposer
        else none
      match composerResult with
      | some (some composerData) =>
        (match resolveComposerList composerData with
         | some cs =>
           (match selectRecentComposer cs with
            | some recentComposer =>
              let cid := composerIdOf recentComposer
              if jsTruthyO cid then
                match cid with
                | some cidv =>
                  if !env.globalDbExists then pure []
                  else
                    (match env.globalItems (composerLookupKey cidv) with
                     | some (some content) =>
                         pure (processComposerContent content recentComposer)
                     | some none => pure []
                     | none => pure [])
                | none => pure []
              else pure []
            | none => pure [])
         | none => pure [])
      | some none => pure []
      | none => pure [])

/-- Models `readWorkspaceData` (lines 1052-1209): key probe (then chat `LIKE`
scan) over `ItemTable`, the `cursorDiskKV` scan, then the composer
fallback; its own `try` turns any error into `[]`. -/
def readWorkspaceData (env : DbEnv) (wsId : List Char) : List FMessage :=
  runCatch (do
    let _ ← getCursorWorkspacePath env
    if !(dirDbExists env wsId) then
      Except.error ("未找到数据库文件: ".toList ++ wsId)
    else do
      let chatResult : Option (Option Json) :=
        if env.hasItemTable then
          match probeKeys possibleKeys env.items with
          | some v => some v
          | none => scanChatResult env.likeScanChat
        else none
      let afterChat : Except JsErr (List FMessage) :=
        match (if env.hasCursorKV then kvLoop env.kvScan else none) with
        | some msgs => pure msgs
        | none =>
          let composerMessages := findComposerData env wsId
          if composerMessages.length > 0 then pure composerMessages else pure []
      match chatResult with
      | some v =>
        let messages := processChatDataRaw v
        if messages.length > 0 then pure messages else afterChat
      | none => afterChat)

/-- Models `extractConversation` of the db snapshot (lines 1214-1235): the
workspace lookup and data read inside a `try` whose `catch` logs and
returns `[]` — so no error ever reaches the caller. -/
def extractConversation (env : DbEnv) : List FMessage :=
  runCatch (do
    let wsId ← findRecentWorkspaceId env
    let messages := readWorkspaceData env wsId
    if messages.length > 0 then truncateLongMessages messages
    else pure [])

end Db

/-- A message whose content is a string that is non-empty after trimming. -/
def NonBlank (m : FMessage) : Prop :=
  ∃ s, m.content = Json.str s ∧ jsTrim s ≠ []

lemma contentKeepE_str (s : List Char) :
    contentKeepE (Json.str s) = Except.ok (!s.isEmpty && !(jsTrim s).isEmpty) := by
  by_cases hs : s.isEmpty <;> simp [contentKeepE, jsTruthy, hs]

lemma contentKeepE_true {c : Json} (h : contentKeepE c = Except.ok true) :
    ∃ s, c = Json.str s ∧ jsTrim s ≠ [] := by
  cases c with
  | str s =>
    rw [contentKeepE_str] at h
    refine ⟨s, rfl, fun hnil => ?_⟩
    simp only [Except.ok.injEq] at h
    rw [hnil] at h
    simp at h
  | null => simp [contentKeepE, jsTruthy] at h
  | bool b => cases b <;> simp [contentKeepE, jsTruthy] at h
  | num n => by_cases hn : (n : Int) = 0 <;> simp [contentKeepE, jsTruthy, hn] at h
  | arr xs => simp [contentKeepE, jsTruthy] at h
  | obj fs => simp [contentKeepE, jsTruthy] at h

lemma filterMessagesE_sound :
    ∀ (l r : List FMessage), filterMessagesE l = Except.ok r → ∀ m ∈ r, NonBlank m := by
  intro l
  induction l with
  | nil =>
    intro r h m hm
    simp only [filterMessagesE] at h
    cases h
    simp at hm
  | cons a rest ih =>
    intro r h m hm
    simp only [filterMessagesE] at h
    cases hk : contentKeepE a.content with
    | error e => simp [hk, bind, Except.bind] at h
    | ok b =>
      cases hr : filterMessagesE rest with
      | error e => simp [hk, hr, bind, Except.bind] at h
      | ok r' =>
        simp only [hk, hr, bind, Except.bind, pure, Except.pure, Except.ok.injEq] at h
        cases b with
        | false =>
          simp only [if_neg (by simp : ¬ (false = true))] at h
          subst h
          exact ih r' hr m hm
        | true =>
          simp only [if_pos rfl] at h
          subst h
          rcases List.mem_cons.mp hm with hma | hmr
          · subst hma
            rcases contentKeepE_true hk with ⟨s, hc, ht⟩
            exact ⟨s, hc, ht⟩
          · exact ih r' hr m hmr

lemma mem_runCatch {m : FMessage} {e : Except JsErr (List FMessage)}
    (hm : m ∈ runCatch e) : ∃ l, e = Except.ok l ∧ m ∈ l := by
  cases e with
  | ok l => exact ⟨l, rfl, hm⟩
  | error err => simp [runCatch] at hm

lemma mapFilterCatch_sound (f : Json → Except JsErr FMessage) (xs : List Json) :
    ∀ m ∈ mapFilterCatch f xs, NonBlank m := by
  intro m hm
  unfold mapFilterCatch at hm
  obtain ⟨l, he, hml⟩ := mem_runCatch hm
  cases hmm : xs.mapM f with
  | error e => rw [hmm] at he; simp [bind, Except.bind] at he
  | ok mapped =>
    rw [hmm] at he
    simp only [bind, Except.bind] at he
    exact filterMessagesE_sound mapped l he m hml

lemma recCandidates_sound (xs : List Json) :
    ∀ m ∈ St.recCandidates xs, NonBlank m := by
  intro m hm
  unfold St.recCandidates at hm
  rw [List.mem_filterMap] at hm
  obtain ⟨o, _, ho⟩ := hm
  cases o with
  | none => simp at ho
  | some m' =>
    dsimp only at ho
    cases hc : m'.content with
    | str s =>
      rw [hc] at ho
      dsimp only at ho
      by_cases hk : (!s.isEmpty && !(jsTrim s).isEmpty) = true
      · rw [if_pos hk] at ho
        cases ho
        refine ⟨s, hc, fun hnil => ?_⟩
        rw [hnil] at hk
        simp at hk
      · rw [if_neg hk] at ho
        cases ho
    | null => rw [hc] at ho; dsimp only at ho; cases ho
    | bool b => rw [hc] at ho; dsimp only at ho; cases ho
    | num n => rw [hc] at ho; dsimp only at ho; cases ho
    | arr l => rw [hc] at ho; dsimp only at ho; cases ho
    | obj fs => rw [hc] at ho; dsimp only at ho; cases ho

/-- The two invariants of the recursive search: the result never has
exactly one element, and every surfaced message has non-blank string
content. -/
def GoodList (l : List FMessage) : Prop :=
  l.length ≠ 1 ∧ ∀ m ∈ l, NonBlank m

lemma goodList_nil : GoodList [] := ⟨by simp, by simp⟩

theorem findRec_invariant :
    (∀ obj path, GoodList (St.findMessagesRecursively obj path)) ∧
    (∀ fs path, GoodList (St.findInFields fs path)) ∧
    (∀ xs path i, GoodList (St.findInArray xs path i)) := by
  refine St.findMessagesRecursively.mutual_induct
    (fun obj path => GoodList (St.findMessagesRecursively obj path))
    (fun fs path => GoodList (St.findInFields fs path))
    (fun xs path i => GoodList (St.findInArray xs path i))
    ?_ ?_ ?_ ?_ ?_ ?_ ?_ ?_ ?_ ?_ ?_ ?_ ?_ ?_ ?_
  · intro t path h
    rw [St.findMessagesRecursively.eq_def]
    rw [if_pos h]
    exact goodList_nil
  · intro t path hg hd
    rw [St.findMessagesRecursively.eq_def]
    rw [if_neg hg, if_pos hd]
    exact goodList_nil
  · intro path hd hg
    simp only [St.findMessagesRecursively, if_neg hg, if_neg hd]
    exact goodList_nil
  · intro path hd x xs messages hlen hg
    have hm : messages = St.recCandidates (x :: xs) := rfl
    rw [hm] at hlen
    simp only [St.findMessagesRecursively, if_neg hg, if_neg hd, if_pos hlen]
    exact ⟨by omega, recCandidates_sound _⟩
  · intro path hd x xs messages hlen hg ih
    have hm : messages = St.recCandidates (x :: xs) := rfl
    rw [hm] at hlen
    simp only [St.findMessagesRecursively, if_neg hg, if_neg hd, if_neg hlen]
    exact ih
  · intro path hd fs hg ih
    simp only [St.findMessagesRecursively, if_neg hg, if_neg hd]
    exact ih
  · intro t path hg hd hne hna hno
    exfalso
    cases t with
    | null => simp [jsTruthy] at hg
    | bool b => simp [isObjLike] at hg
    | num n => simp [isObjLike] at hg
    | str s => simp [isObjLike] at hg
    | arr l =>
      cases l with
      | nil => exact hne rfl
      | cons a as => exact hna a as rfl
    | obj fs => exact hno fs rfl
  · intro path i
    simp only [St.findInArray]
    exact goodList_nil
  · intro path i x rest hg r hr ih
    simp only [St.findInArray, hg, if_true, if_pos hr]
    exact ih
  · intro path i x rest hg r hr ih ihrest
    simp only [St.findInArray, hg, if_true, if_neg hr]
    exact ihrest
  · intro path i x rest hg ihrest
    simp only [St.findInArray, if_neg hg]
    exact ihrest
  · intro path
    simp only [St.findInFields]
    exact goodList_nil
  · intro path k v rest hg r hr ih
    simp only [St.findInFields, hg, if_true, if_pos hr]
    exact ih
  · intro path k v rest hg r hr ih ihrest
    simp only [St.findInFields, hg, if_true, if_neg hr]
    exact ihrest
  · intro path k v rest hg ihrest
    simp only [St.findInFields, if_neg hg]
    exact ihrest

lemma jsSplitDot_ne_nil (s : List Char) : St.jsSplitDot s ≠ [] := by
  induction s with
  | nil => simp [St.jsSplitDot]
  | cons c rest ih =>
    simp only [St.jsSplitDot]
    cases h : St.jsSplitDot rest with
    | nil => simp
    | cons seg segs => by_cases hc : c = '.' <;> simp [hc]

lemma jsSplitDot_no_dot (t : List Char) (h : '.' ∉ t) : St.jsSplitDot t = [t] := by
  induction t with
  | nil => rfl
  | cons c rest ih =>
    have hc : c ≠ '.' := fun e => h (e ▸ List.mem_cons_self c rest)
    have hr : '.' ∉ rest := fun hm => h (List.mem_cons_of_mem _ hm)
    simp only [St.jsSplitDot, ih hr]
    simp [hc]

lemma jsSplitDot_append_len (s t : List Char) :
    (St.jsSplitDot (s ++ t)).length + 1 =
      (St.jsSplitDot s).length + (St.jsSplitDot t).length := by
  induction s with
  | nil => simp [St.jsSplitDot]; omega
  | cons c rest ih =>
    simp only [List.cons_append, St.jsSplitDot]
    cases h1 : St.jsSplitDot (rest ++ t) with
    | nil => exact absurd h1 (jsSplitDot_ne_nil _)
    | cons seg segs =>
      cases h2 : St.jsSplitDot rest with
      | nil => exact absurd h2 (jsSplitDot_ne_nil _)
      | cons seg2 segs2 =>
        rw [h1, h2] at ih
        by_cases hc : c = '.' <;> simp_all <;> try omega

lemma jsSplitDot_append_nodot (s t : List Char) (h : '.' ∉ t) :
    (St.jsSplitDot (s ++ t)).length = (St.jsSplitDot s).length := by
  have := jsSplitDot_append_len s t
  rw [jsSplitDot_no_dot t h] at this
  simpa using this

lemma jsSplitDot_append_dotseg (s t : List Char) (h : '.' ∉ t) :
    (St.jsSplitDot (s ++ '.' :: t)).length = (St.jsSplitDot s).length + 1 := by
  have hlen := jsSplitDot_append_len s ('.' :: t)
  have hdot : St.jsSplitDot ('.' :: t) = [] :: St.jsSplitDot t := by
    simp only [St.jsSplitDot]
    cases hx : St.jsSplitDot t with
    | nil => exact absurd hx (jsSplitDot_ne_nil _)
    | cons a b => simp
  rw [hdot, jsSplitDot_no_dot t h] at hlen
  simp at hlen
  omega

/-! ## Fixtures for the recursive-search depth analysis -/

/-- A well-formed user message record. -/
def msgU : Json := Json.obj [("role", jstr "user"), ("content", jstr "hi")]

/-- A well-formed assistant message record. -/
def msgA : Json := Json.obj [("role", jstr "assistant"), ("content", jstr "yo")]

/-- The normalized form of `msgU`. -/
def fmU : FMessage := ⟨jstr "user", jstr "hi", none⟩

/-- The normalized form of `msgA`. -/
def fmA : FMessage := ⟨jstr "assistant", jstr "yo", none⟩

/-- A two-message conversation buried under `n` singleton-array levels. -/
def deepNest : Nat → Json
  | 0 => Json.arr [msgU, msgA]
  | n + 1 => Json.arr [deepNest n]

/-- A two-message conversation buried under `n` object-property levels. -/
def objNest : Nat → Json
  | 0 => Json.arr [msgU, msgA]
  | n + 1 => Json.obj [("k", objNest n)]

lemma recCandidates_eval : St.recCandidates [msgU, msgA] = [fmU, fmA] := rfl

lemma recCandidates_arrSingleton (l : List Json) :
    St.recCandidates [Json.arr l] = [] := rfl

lemma deepNest_isArr (n : Nat) : ∃ l, deepNest n = Json.arr l := by
  cases n <;> exact ⟨_, rfl⟩

/-- Array descent never increases the dot count, so the depth guard never
fires along pure-array nesting: the buried conversation is found at
**any** nesting depth. -/
lemma deepNest_found : ∀ (n : Nat) (path : List Char),
    (St.jsSplitDot path).length ≤ 10 →
    St.findMessagesRecursively (deepNest n) path = [fmU, fmA] := by
  intro n
  induction n with
  | zero =>
    intro path hp
    have hd : ¬ ((St.jsSplitDot path).length > 10) := by omega
    simp only [deepNest]
    simp [St.findMessagesRecursively, recCandidates_eval, jsTruthy, isObjLike, hd]
  | succ n ih =>
    intro path hp
    have hd : ¬ ((St.jsSplitDot path).length > 10) := by omega
    obtain ⟨l, hl⟩ := deepNest_isArr n
    have hc : St.recCandidates [deepNest n] = [] := by
      rw [hl]; exact recCandidates_arrSingleton l
    have ht : jsTruthy (deepNest n) = true := by rw [hl]; rfl
    have ho : isObjLike (deepNest n) = true := by rw [hl]; rfl
    have hpath : (St.jsSplitDot (path ++ '[' :: ((toString 0).toList ++ [']']))).length =
        (St.jsSplitDot path).length := by
      apply jsSplitDot_append_nodot
      decide
    simp only [deepNest]
    simp only [St.findMessagesRecursively, hc]
    rw [if_neg (by simp [jsTruthy, isObjLike]), if_neg hd, if_neg (by simp)]
    simp only [St.findInArray, ht, ho]
    rw [ih (path ++ '[' :: ((toString 0).toList ++ [']'])) (by rw [hpath]; exact hp)]
    simp

lemma objNest_truthy (n : Nat) :
    jsTruthy (objNest n) = true ∧ isObjLike (objNest n) = true := by
  cases n <;> exact ⟨rfl, rfl⟩

/-- Object-property descent adds one dot per level, so the depth guard
blocks the search once the accumulated path has more than ten segments. -/
lemma objNest_blocked : ∀ (n : Nat) (path : List Char),
    12 ≤ n + (St.jsSplitDot path).length →
    St.findMessagesRecursively (objNest n) path = [] := by
  intro n
  induction n with
  | zero =>
    intro path hp
    have hd : (St.jsSplitDot path).length > 10 := by omega
    simp only [objNest]
    rw [St.findMessagesRecursively.eq_def]
    rw [if_neg (by simp [jsTruthy, isObjLike]), if_pos hd]
  | succ n ih =>
    intro path hp
    by_cases hd : (St.jsSplitDot path).length > 10
    · rw [St.findMessagesRecursively.eq_def]
      rw [if_neg (by simp [objNest, jsTruthy, isObjLike]), if_pos hd]
    · obtain ⟨ht, ho⟩ := objNest_truthy n
      have hpath : (St.jsSplitDot (path ++ '.' :: ("k" : String).toList)).length =
          (St.jsSplitDot path).length + 1 := by
        apply jsSplitDot_append_dotseg
        decide
      simp only [objNest]
      simp only [St.findMessagesRecursively]
      rw [if_neg (by simp [jsTruthy, isObjLike]), if_neg hd]
      simp only [St.findInFields, ht, ho]
      rw [ih (path ++ '.' :: ("k" : String).toList) (by rw [hpath]; omega)]
      simp [St.findInFields]

example :
    St.findMessagesRecursively (deepNest 14) "root".toList = [fmU, fmA] ∧
    St.findMessagesRecursively (objNest 11) "root".toList = [] := by
  constructor
  · exact deepNest_found 14 _ (by decide)
  · exact objNest_blocked 11 _ (by decide)

lemma truncMarker_length : truncMarker.length = 11 := by decide

lemma truncateOne_str_long (role : Json) (ts : Option Json) (s : List Char)
    (h : s.length > MAX_LENGTH) :
    truncateOne ⟨role, Json.str s, ts⟩ =
      Except.ok ⟨role, Json.str (s.take MAX_LENGTH ++ truncMarker), ts⟩ := by
  have hne : s ≠ [] := by
    intro e
    rw [e] at h
    simp [MAX_LENGTH] at h
  unfold truncateOne
  rw [if_pos (by simp [jsTruthy, lenGtMax, jsLengthProp, h, hne])]

lemma truncateOne_str_short (role : Json) (ts : Option Json) (s : List Char)
    (h : s.length ≤ MAX_LENGTH) :
    truncateOne ⟨role, Json.str s, ts⟩ = Except.ok ⟨role, Json.str s, ts⟩ := by
  unfold truncateOne
  rw [if_neg (by simp [lenGtMax, jsLengthProp]; omega)]

lemma truncateOne_idem {m m' : FMessage} (h : truncateOne m = Except.ok m') :
    truncateOne m' = Except.ok m' := by
  obtain ⟨role, content, ts⟩ := m
  cases content with
  | str s =>
    by_cases hl : s.length > MAX_LENGTH
    · rw [truncateOne_str_long role ts s hl] at h
      cases h
      have htake : (s.take MAX_LENGTH).length = MAX_LENGTH := by
        simp [List.length_take]
        omega
      have hlong : (s.take MAX_LENGTH ++ truncMarker).length > MAX_LENGTH := by
        rw [List.length_append, htake, truncMarker_length]
        omega
      rw [truncateOne_str_long role ts _ hlong]
      have takeapp : ∀ (a b : List Char) (n : Nat), a.length = n → (a ++ b).take n = a :=
        fun a b n hn => hn ▸ List.take_left a b
      rw [takeapp _ _ _ htake]
    · rw [truncateOne_str_short role ts s (by omega)] at h
      cases h
      exact truncateOne_str_short role ts s (by omega)
  | arr xs =>
    unfold truncateOne at h ⊢
    by_cases hc : (jsTruthy (Json.arr xs) && lenGtMax (Json.arr xs)) = true
    · rw [if_pos hc] at h
      cases h
    · rw [if_neg hc] at h
      cases h
      rw [if_neg hc]
  | null =>
    have hone : truncateOne ⟨role, Json.null, ts⟩ = Except.ok ⟨role, Json.null, ts⟩ := by
      unfold truncateOne
      rw [if_neg (by simp [lenGtMax, jsLengthProp])]
    rw [hone] at h
    cases h
    exact hone
  | bool b =>
    have hone : truncateOne ⟨role, Json.bool b, ts⟩ = Except.ok ⟨role, Json.bool b, ts⟩ := by
      unfold truncateOne
      rw [if_neg (by simp [lenGtMax, jsLengthProp])]
    rw [hone] at h
    cases h
    exact hone
  | num n =>
    have hone : truncateOne ⟨role, Json.num n, ts⟩ = Except.ok ⟨role, Json.num n, ts⟩ := by
      unfold truncateOne
      rw [if_neg (by simp [lenGtMax, jsLengthProp])]
    rw [hone] at h
    cases h
    exact hone
  | obj fs =>
    have hone : truncateOne ⟨role, Json.obj fs, ts⟩ = Except.ok ⟨role, Json.obj fs, ts⟩ := by
      unfold truncateOne
      rw [if_neg (by simp [lenGtMax, jsLengthProp])]
    rw [hone] at h
    cases h
    exact hone

lemma truncate_idem : ∀ (msgs r : List FMessage),
    truncateLongMessages msgs = Except.ok r → truncateLongMessages r = Except.ok r := by
  intro msgs
  induction msgs with
  | nil =>
    intro r h
    unfold truncateLongMessages at h ⊢
    rw [List.mapM_nil] at h
    simp only [pure, Except.pure, Except.ok.injEq] at h
    rw [← h, List.mapM_nil]
    rfl
  | cons a rest ih =>
    intro r h
    unfold truncateLongMessages at h ⊢
    rw [List.mapM_cons] at h
    cases ha : truncateOne a with
    | error e => rw [ha] at h; simp [bind, Except.bind] at h
    | ok a' =>
      rw [ha] at h
      cases hr : rest.mapM truncateOne with
      | error e => rw [hr] at h; simp [bind, Except.bind] at h
      | ok r' =>
        rw [hr] at h
        simp only [bind, Except.bind, pure, Except.pure, Except.ok.injEq] at h
        subst h
        rw [List.mapM_cons, truncateOne_idem ha]
        have := ih r' hr
        unfold truncateLongMessages at this
        rw [this]
        rfl

lemma truncate_length : ∀ (msgs r : List FMessage),
    truncateLongMessages msgs = Except.ok r → r.length = msgs.length := by
  intro msgs
  induction msgs with
  | nil =>
    intro r h
    unfold truncateLongMessages at h
    rw [List.mapM_nil] at h
    simp only [pure, Except.pure, Except.ok.injEq] at h
    simp [← h]
  | cons a rest ih =>
    intro r h
    unfold truncateLongMessages at h
    rw [List.mapM_cons] at h
    cases ha : truncateOne a with
    | error e => rw [ha] at h; simp [bind, Except.bind] at h
    | ok a' =>
      rw [ha] at h
      cases hr : rest.mapM truncateOne with
      | error e => rw [hr] at h; simp [bind, Except.bind] at h
      | ok r' =>
        rw [hr] at h
        simp only [bind, Except.bind, pure, Except.pure, Except.ok.injEq] at h
        subst h
        have := ih r' hr
        simp [this]

/-- A message whose content value is a string. -/
def StrContent (m : FMessage) : Prop := ∃ s, m.content = Json.str s

lemma NonBlank.strContent {m : FMessage} : NonBlank m → StrContent m :=
  fun ⟨s, h, _⟩ => ⟨s, h⟩

lemma jsTruthy_ne_null {c : Json} (h : jsTruthy c = true) : c ≠ Json.null := by
  intro e
  rw [e] at h
  simp [jsTruthy] at h

lemma jsGetFieldE_ok {c : Json} (h : c ≠ Json.null) (k : String) :
    jsGetFieldE c k = Except.ok (jsGet c k) := by
  cases c <;> simp_all [jsGetFieldE]

lemma mapFilterE_sound {f : Json → Except JsErr FMessage} {xs : List Json}
    {l : List FMessage}
    (he : (do
        let mapped ← xs.mapM f
        filterMessagesE mapped) = Except.ok l) :
    ∀ m ∈ l, NonBlank m := by
  cases hmm : xs.mapM f with
  | error e => rw [hmm] at he; simp [bind, Except.bind] at he
  | ok mapped =>
    rw [hmm] at he
    simp only [bind, Except.bind] at he
    exact filterMessagesE_sound mapped l he

lemma processLocalContent_str (c : Json) :
    ∀ m ∈ St.processLocalContent c, StrContent m := by
  intro m hm
  unfold St.processLocalContent at hm
  split at hm
  · simp at hm
  · obtain ⟨l, he, hml⟩ := mem_runCatch hm
    split at he
    · exact (mapFilterE_sound he m hml).strContent
    · split at he
      · exact (mapFilterE_sound he m hml).strContent
      · split at he
        · simp only [pure, Except.pure, Except.ok.injEq] at he
          subst he
          simp only [List.mem_singleton] at hml
          subst hml
          exact ⟨_, rfl⟩
        · simp only [pure, Except.pure, Except.ok.injEq] at he
          subst he
          simp only [List.mem_singleton] at hml
          subst hml
          exact ⟨_, rfl⟩
        · simp only [pure, Except.pure, Except.ok.injEq] at he
          subst he
          simp at hml

lemma flattenFilter_sound {F : Json → Except JsErr (List FMessage)}
    {convs : List Json} {l : List FMessage}
    (he : (do
        let parts ← convs.mapM F
        let messages ← filterMessagesE parts.flatten
        pure (if messages.length > 0 then messages else []) :
          Except JsErr (List FMessage)) = Except.ok l) :
    ∀ m ∈ l, NonBlank m := by
  intro m hml
  cases hp : convs.mapM F with
  | error e => rw [hp] at he; simp [bind, Except.bind] at he
  | ok parts =>
    rw [hp] at he
    simp only [bind, Except.bind] at he
    cases hf : filterMessagesE parts.flatten with
    | error e => rw [hf] at he; simp at he
    | ok msgs =>
      rw [hf] at he
      simp only [pure, Except.pure, Except.ok.injEq] at he
      subst he
      by_cases hlen : msgs.length > 0
      · rw [if_pos hlen] at hml
        exact filterMessagesE_sound _ _ hf m hml
      · rw [if_neg hlen] at hml
        simp at hml

lemma extractFromLocalChatHistory_str (ctx : Json) :
    ∀ m ∈ St.extractFromLocalChatHistory ctx, StrContent m := by
  intro m hm
  unfold St.extractFromLocalChatHistory at hm
  obtain ⟨l, he, hml⟩ := mem_runCatch hm
  cases h1 : jsGetFieldE ctx "workspaceId" with
  | error e => rw [h1] at he; simp [bind, Except.bind] at he
  | ok wsIdA =>
    rw [h1] at he
    simp only [bind, Except.bind] at he
    cases h2 : jsGetFieldE ctx "workspace" with
    | error e => rw [h2] at he; simp at he
    | ok ws =>
      rw [h2] at he
      cases h3 : jsGetFieldE ctx "composerId" with
      | error e => rw [h3] at he; simp at he
      | ok compIdA =>
        rw [h3] at he
        cases h4 : jsGetFieldE ctx "composer" with
        | error e => rw [h4] at he; simp at he
        | ok comp =>
          rw [h4] at he
          dsimp only at he
          split at he
          · simp only [pure, Except.pure, Except.ok.injEq] at he
            subst he
            simp at hml
          · split at he
            · split at he
              · simp only [pure, Except.pure, Except.ok.injEq] at he
                subst he
                exact processLocalContent_str _ m hml
              · split at he
                · exact (flattenFilter_sound he m hml).strContent
                · simp only [pure, Except.pure, Except.ok.injEq] at he
                  subst he
                  simp at hml
            · split at he
              · exact (flattenFilter_sound he m hml).strContent
              · simp only [pure, Except.pure, Except.ok.injEq] at he
                subst he
                simp at hml

lemma extractFromConversation_ok (ctx : Json) (hne : ctx ≠ Json.null) :
    ∃ l, St.extractFromConversation ctx = Except.ok l ∧ ∀ m ∈ l, NonBlank m := by
  unfold St.extractFromConversation
  rw [jsGetFieldE_ok hne]
  simp only [bind, Except.bind]
  split
  · rename_i xs hx
    by_cases hxs : xs.length = 0
    · rw [if_pos hxs]
      exact ⟨[], rfl, by simp⟩
    · rw [if_neg hxs]
      refine ⟨_, rfl, ?_⟩
      intro m hm
      by_cases hl : (mapFilterCatch St.mapMsgFull xs).length > 0
      · rw [if_pos hl] at hm
        exact mapFilterCatch_sound _ _ m hm
      · rw [if_neg hl] at hm
        simp at hm
  · exact ⟨[], rfl, by simp⟩

lemma extractFromBubbles_ok (ctx : Json) (hne : ctx ≠ Json.null) :
    ∃ l, St.extractFromBubbles ctx = Except.ok l ∧ ∀ m ∈ l, NonBlank m := by
  unfold St.extractFromBubbles
  rw [jsGetFieldE_ok hne]
  simp only [bind, Except.bind]
  split
  · rename_i xs hx
    by_cases hxs : xs.length = 0
    · rw [if_pos hxs]
      exact ⟨[], rfl, by simp⟩
    · rw [if_neg hxs]
      refine ⟨_, rfl, ?_⟩
      intro m hm
      by_cases hl : (mapFilterCatch St.mapMsgBubble xs).length > 0
      · rw [if_pos hl] at hm
        exact mapFilterCatch_sound _ _ m hm
      · rw [if_neg hl] at hm
        simp at hm
  · exact ⟨[], rfl, by simp⟩

lemma extractFromMessagesOrHistory_ok (ctx : Json) (hne : ctx ≠ Json.null) :
    ∃ l, St.extractFromMessagesOrHistory ctx = Except.ok l ∧ ∀ m ∈ l, NonBlank m := by
  unfold St.extractFromMessagesOrHistory
  rw [jsGetFieldE_ok hne]
  simp only [bind, Except.bind]
  rw [jsGetFieldE_ok hne]
  simp only [bind, Except.bind]
  split
  · rename_i xs hx
    by_cases hxs : xs.length = 0
    · rw [if_pos hxs]
      exact ⟨[], rfl, by simp⟩
    · rw [if_neg hxs]
      refine ⟨_, rfl, ?_⟩
      intro m hm
      by_cases hl : (mapFilterCatch St.mapMsgFull xs).length > 0
      · rw [if_pos hl] at hm
        exact mapFilterCatch_sound _ _ m hm
      · rw [if_neg hl] at hm
        simp at hm
  · exact ⟨[], rfl, by simp⟩

lemma extractFromArrayContext_ok (ctx : Json) :
    ∃ l, St.extractFromArrayContext ctx = Except.ok l ∧ ∀ m ∈ l, NonBlank m := by
  unfold St.extractFromArrayContext
  split
  · rename_i xs
    by_cases hxs : xs.length = 0
    · rw [if_pos hxs]
      exact ⟨[], rfl, by simp⟩
    · rw [if_neg hxs]
      refine ⟨_, rfl, ?_⟩
      intro m hm
      by_cases hl : (mapFilterCatch St.mapMsg3 xs).length > 0
      · rw [if_pos hl] at hm
        exact mapFilterCatch_sound _ _ m hm
      · rw [if_neg hl] at hm
        simp at hm
  · exact ⟨[], rfl, by simp⟩

lemma extractFromChatHistory_ok (ctx : Json) (hne : ctx ≠ Json.null) :
    ∃ l, St.extractFromChatHistory ctx = Except.ok l ∧ ∀ m ∈ l, StrContent m := by
  unfold St.extractFromChatHistory
  rw [jsGetFieldE_ok hne]
  simp only [bind, Except.bind]
  split
  · rename_i xs hx
    refine ⟨_, rfl, ?_⟩
    intro m hm
    by_cases hl : (mapFilterCatch St.mapMsgCH xs).length > 0
    · rw [if_pos hl] at hm
      exact (mapFilterCatch_sound _ _ m hm).strContent
    · rw [if_neg hl] at hm
      simp at hm
  · exact ⟨_, rfl, extractFromLocalChatHistory_str ctx⟩

lemma filterLen_sound {mapped : List FMessage} {l : List FMessage}
    (he : (do
        let messages ← filterMessagesE mapped
        pure (if messages.length > 0 then messages else []) :
          Except JsErr (List FMessage)) = Except.ok l) :
    ∀ m ∈ l, NonBlank m := by
  intro m hml
  cases hf : filterMessagesE mapped with
  | error e => rw [hf] at he; simp [bind, Except.bind] at he
  | ok msgs =>
    rw [hf] at he
    simp only [bind, Except.bind, pure, Except.pure, Except.ok.injEq] at he
    subst he
    by_cases hlen : msgs.length > 0
    · rw [if_pos hlen] at hml
      exact filterMessagesE_sound _ _ hf m hml
    · rw [if_neg hlen] at hml
      simp at hml

lemma cursorChatBranch_nb (ccv : Json) :
    ∀ {l : List FMessage},
      (match jsGet ccv "chat" with
       | some chat =>
         if jsTruthy chat then
           match jsGet chat "messages" with
           | some (Json.arr ys) => do
               let mapped ← ys.mapM St.mapMsgCursorB
               let messages ← filterMessagesE mapped
               pure (if messages.length > 0 then messages else [])
           | _ => pure []
         else pure []
       | none => pure [] : Except JsErr (List FMessage)) = Except.ok l →
      ∀ m ∈ l, NonBlank m := by
  intro l he m hml
  split at he
  · split at he
    · split at he
      · rename_i ys hy
        cases hmm : ys.mapM St.mapMsgCursorB with
        | error e => rw [hmm] at he; simp [bind, Except.bind] at he
        | ok mapped =>
          rw [hmm] at he
          simp only [bind, Except.bind] at he
          exact filterLen_sound he m hml
      · simp only [pure, Except.pure, Except.ok.injEq] at he
        subst he
        simp at hml
    · simp only [pure, Except.pure, Except.ok.injEq] at he
      subst he
      simp at hml
  · simp only [pure, Except.pure, Except.ok.injEq] at he
    subst he
    simp at hml

lemma extractFromCursorSpecific_ok (ctx : Json) (hne : ctx ≠ Json.null) :
    ∃ l, St.extractFromCursorSpecific ctx = Except.ok l ∧ ∀ m ∈ l, NonBlank m := by
  unfold St.extractFromCursorSpecific
  rw [jsGetFieldE_ok hne]
  simp only [bind, Except.bind]
  split
  · rename_i ccv hcc
    by_cases ht : jsTruthy ccv
    · rw [if_pos ht]
      refine ⟨_, rfl, ?_⟩
      intro m hm
      obtain ⟨l, he, hml⟩ := mem_runCatch hm
      split at he
      · rename_i xs hx
        cases hmm : xs.mapM St.mapMsgCursorA with
        | error e => rw [hmm] at he; simp [bind, Except.bind] at he
        | ok mapped =>
          rw [hmm] at he
          simp only [bind, Except.bind] at he
          cases hf : filterMessagesE mapped with
          | error e => rw [hf] at he; simp at he
          | ok msgs =>
            rw [hf] at he
            simp only at he
            by_cases hlen : msgs.length > 0
            · rw [if_pos hlen] at he
              simp only [pure, Except.pure, Except.ok.injEq] at he
              subst he
              exact filterMessagesE_sound _ _ hf m hml
            · rw [if_neg hlen] at he
              exact cursorChatBranch_nb ccv he m hml
      · exact cursorChatBranch_nb ccv he m hml
    · rw [if_neg ht]
      exact ⟨[], rfl, by simp⟩
  · exact ⟨[], rfl, by simp⟩

lemma truncate_total : ∀ (msgs : List FMessage), (∀ m ∈ msgs, StrContent m) →
    ∃ r, truncateLongMessages msgs = Except.ok r := by
  intro msgs
  induction msgs with
  | nil =>
    intro _
    refine ⟨[], ?_⟩
    unfold truncateLongMessages
    rw [List.mapM_nil]
    rfl
  | cons a rest ih =>
    intro h
    obtain ⟨s, hc⟩ := h a (List.mem_cons_self a rest)
    obtain ⟨r, hr⟩ := ih (fun m hm => h m (List.mem_cons_of_mem a hm))
    obtain ⟨role, content, ts⟩ := a
    simp only at hc
    subst hc
    unfold truncateLongMessages at hr ⊢
    rw [List.mapM_cons]
    by_cases hl : s.length > MAX_LENGTH
    · rw [truncateOne_str_long role ts s hl, hr]
      exact ⟨_, rfl⟩
    · rw [truncateOne_str_short role ts s (by omega), hr]
      exact ⟨_, rfl⟩

lemma findRec_str (obj : Json) (path : List Char) :
    ∀ m ∈ St.findMessagesRecursively obj path, StrContent m :=
  fun m hm => ((findRec_invariant.1 obj path).2 m hm).strContent

theorem extractConversationSt_total (ctx : Json) :
    ∃ msgs, St.extractConversation ctx = Except.ok msgs := by
  unfold St.extractConversation
  by_cases htr : jsTruthy ctx
  · rw [if_neg (by simp [htr])]
    have hne := jsTruthy_ne_null htr
    obtain ⟨l1, he1, hs1⟩ := extractFromCursorSpecific_ok ctx hne
    rw [he1]
    simp only [bind, Except.bind]
    by_cases h1 : l1.length > 0
    · rw [if_pos h1]
      exact truncate_total l1 (fun m hm => (hs1 m hm).strContent)
    · rw [if_neg h1]
      obtain ⟨l2, he2, hs2⟩ := extractFromChatHistory_ok ctx hne
      rw [he2]
      simp only [bind, Except.bind]
      by_cases h2 : l2.length > 0
      · rw [if_pos h2]
        exact truncate_total l2 hs2
      · rw [if_neg h2]
        obtain ⟨l3, he3, hs3⟩ := extractFromConversation_ok ctx hne
        rw [he3]
        simp only [bind, Except.bind]
        by_cases h3 : l3.length > 0
        · rw [if_pos h3]
          exact truncate_total l3 (fun m hm => (hs3 m hm).strContent)
        · rw [if_neg h3]
          obtain ⟨l4, he4, hs4⟩ := extractFromBubbles_ok ctx hne
          rw [he4]
          simp only [bind, Except.bind]
          by_cases h4 : l4.length > 0
          · rw [if_pos h4]
            exact truncate_total l4 (fun m hm => (hs4 m hm).strContent)
          · rw [if_neg h4]
            obtain ⟨l5, he5, hs5⟩ := extractFromMessagesOrHistory_ok ctx hne
            rw [he5]
            simp only [bind, Except.bind]
            by_cases h5 : l5.length > 0
            · rw [if_pos h5]
              exact truncate_total l5 (fun m hm => (hs5 m hm).strContent)
            · rw [if_neg h5]
              obtain ⟨l6, he6, hs6⟩ := extractFromArrayContext_ok ctx
              rw [he6]
              simp only [bind, Except.bind]
              by_cases h6 : l6.length > 0
              · rw [if_pos h6]
                exact truncate_total l6 (fun m hm => (hs6 m hm).strContent)
              · rw [if_neg h6]
                exact truncate_total _ (findRec_str ctx "root".toList)
  · rw [if_pos (by simp [htr])]
    exact ⟨[], rfl⟩

/-- The explicit-role test of `determineRole`: the `role` field holds one
of the four canonical tags. -/
def roleIsCanonical (o : Option Json) : Bool :=
  match o with
  | some (Json.str s) =>
    decide (s = "user".toList) || decide (s = "assistant".toList) ||
    decide (s = "system".toList) || decide (s = "function".toList)
  | _ => false

lemma db_rest_of_roleNC {msg : Json}
    (h : roleIsCanonical (jsGet msg "role") = false) :
    Db.determineRoleCore msg = Db.determineRoleCore.determineRoleRest msg := by
  unfold Db.determineRoleCore
  cases hj : jsGet msg "role" with
  | none => rfl
  | some v =>
    cases v with
    | str s =>
      rw [hj] at h
      simp only [roleIsCanonical] at h
      dsimp only
      rw [if_neg (by simp_all)]
    | null => rfl
    | bool b => rfl
    | num n => rfl
    | arr l => rfl
    | obj fs => rfl

lemma st_rest_of_roleNC {msg : Json}
    (h : roleIsCanonical (jsGet msg "role") = false) :
    St.determineRoleCore msg = St.determineRoleCore.determineRoleRest msg := by
  unfold St.determineRoleCore
  cases hj : jsGet msg "role" with
  | none => rfl
  | some v =>
    cases v with
    | str s =>
      rw [hj] at h
      simp only [roleIsCanonical] at h
      dsimp only
      rw [if_neg (by simp_all)]
    | null => rfl
    | bool b => rfl
    | num n => rfl
    | arr l => rfl
    | obj fs => rfl



lemma jsGet_some_obj {j : Json} {k : String} {v : Json} (h : jsGet j k = some v) :
    ∃ fs, j = Json.obj fs := by
  cases j <;> simp [jsGet] at h ⊢

lemma chatMessagesFromArray_sound {xs : List Json} {l : List FMessage}
    (he : Db.chatMessagesFromArray xs = Except.ok l) : ∀ m ∈ l, NonBlank m := by
  unfold Db.chatMessagesFromArray at he
  exact mapFilterE_sound he

lemma pcdConvBranch_nb {data : Json} {l : List FMessage}
    (he : Db.pcdConvBranch data = Except.ok l) : ∀ m ∈ l, NonBlank m := by
  unfold Db.pcdConvBranch at he
  split at he
  · exact chatMessagesFromArray_sound he
  · simp only [pure, Except.pure, Except.ok.injEq] at he
    subst he
    simp

lemma pcdMessagesBranch_nb {data : Json} {l : List FMessage}
    (he : Db.pcdMessagesBranch data = Except.ok l) : ∀ m ∈ l, NonBlank m := by
  unfold Db.pcdMessagesBranch at he
  split at he
  · exact chatMessagesFromArray_sound he
  · exact pcdConvBranch_nb he

lemma pcdChatsInner_nb {data chat : Json} {l : List FMessage}
    (he : Db.pcdChatsInner data chat = Except.ok l) : ∀ m ∈ l, NonBlank m := by
  unfold Db.pcdChatsInner at he
  cases hg : jsGetFieldE chat "messages" with
  | error e => rw [hg] at he; simp [bind, Except.bind] at he
  | ok ms =>
    rw [hg] at he
    simp only [bind, Except.bind] at he
    split at he
    · exact chatMessagesFromArray_sound he
    · exact pcdMessagesBranch_nb he

lemma pcdChatsBranch_nb {data : Json} {l : List FMessage}
    (he : Db.pcdChatsBranch data = Except.ok l) : ∀ m ∈ l, NonBlank m := by
  unfold Db.pcdChatsBranch at he
  split at he
  · split at he
    · split at he
      · exact pcdChatsInner_nb he
      · exact pcdChatsInner_nb he
      · exact pcdMessagesBranch_nb he
    · exact pcdMessagesBranch_nb he
  · exact pcdMessagesBranch_nb he

lemma processChatData_nonblank (data : Json) :
    ∀ m ∈ Db.processChatData data, NonBlank m := by
  intro m hm
  unfold Db.processChatData at hm
  obtain ⟨l, he, hml⟩ := mem_runCatch hm
  by_cases htr : jsTruthy data
  · rw [if_neg (by simp [htr])] at he
    split at he
    · rename_i ts hts
      by_cases hlen : ts.length > 0
      · rw [if_pos hlen] at he
        split at he
        · rename_i recentTab hlast
          cases hg : jsGetFieldE recentTab "conversation" with
          | error e => rw [hg] at he; simp [bind, Except.bind] at he
          | ok conv =>
            rw [hg] at he
            simp only [bind, Except.bind] at he
            split at he
            · exact chatMessagesFromArray_sound he m hml
            · exact pcdChatsBranch_nb he m hml
        · exact pcdChatsBranch_nb he m hml
      · rw [if_neg hlen] at he
        exact pcdChatsBranch_nb he m hml
    · exact pcdChatsBranch_nb he m hml
  · rw [if_pos (by simp [htr])] at he
    simp only [pure, Except.pure, Except.ok.injEq] at he
    subst he
    simp at hml

lemma processComposerContent_conv_nb (content composer : Json) (xs : List Json)
    (h : jsGet content "conversation" = some (Json.arr xs)) :
    ∀ m ∈ Db.processComposerContent content composer, NonBlank m := by
  intro m hm
  obtain ⟨fs, hfs⟩ := jsGet_some_obj h
  unfold Db.processComposerContent at hm
  rw [if_neg (by simp [hfs, jsTruthy])] at hm
  obtain ⟨l, he, hml⟩ := mem_runCatch hm
  rw [h] at he
  exact chatMessagesFromArray_sound he m hml

lemma processComposerContent_msgs_nb (content composer : Json) (xs : List Json)
    (hc : jsGet content "conversation" = none)
    (h : jsGet content "messages" = some (Json.arr xs)) :
    ∀ m ∈ Db.processComposerContent content composer, NonBlank m := by
  intro m hm
  obtain ⟨fs, hfs⟩ := jsGet_some_obj h
  unfold Db.processComposerContent at hm
  rw [if_neg (by simp [hfs, jsTruthy])] at hm
  obtain ⟨l, he, hml⟩ := mem_runCatch hm
  rw [hc] at he
  dsimp only at he
  rw [h] at he
  exact chatMessagesFromArray_sound he m hml

lemma stConvNull :
    St.extractFromConversation Json.null = Except.error "TypeError".toList := rfl

lemma stBubblesNull :
    St.extractFromBubbles Json.null = Except.error "TypeError".toList := rfl

lemma stMsgsHistNull :
    St.extractFromMessagesOrHistory Json.null = Except.error "TypeError".toList := rfl

lemma stCursorNull :
    St.extractFromCursorSpecific Json.null = Except.error "TypeError".toList := rfl

lemma stChatHistNull :
    St.extractFromChatHistory Json.null = Except.error "TypeError".toList := rfl

/-- C1 (amended): every message surfaced by an array-mapping shape-parser
branch has non-blank string content; this covers the five structural
parsers, the chat-history parser when a `chatHistory` array is present,
every branch of `processChatData`, the `conversation`/`messages`
branches of `processComposerContent`, and the recursive search. -/
theorem spec_C1_parsers_drop_blank :
    (∀ ctx l, St.extractFromConversation ctx = Except.ok l → ∀ m ∈ l, NonBlank m) ∧
    (∀ ctx l, St.extractFromBubbles ctx = Except.ok l → ∀ m ∈ l, NonBlank m) ∧
    (∀ ctx l, St.extractFromMessagesOrHistory ctx = Except.ok l → ∀ m ∈ l, NonBlank m) ∧
    (∀ ctx l, St.extractFromArrayContext ctx = Except.ok l → ∀ m ∈ l, NonBlank m) ∧
    (∀ ctx l, St.extractFromCursorSpecific ctx = Except.ok l → ∀ m ∈ l, NonBlank m) ∧
    (∀ ctx xs l, jsGet ctx "chatHistory" = some (Json.arr xs) →
      St.extractFromChatHistory ctx = Except.ok l → ∀ m ∈ l, NonBlank m) ∧
    (∀ data m, m ∈ Db.processChatData data → NonBlank m) ∧
    (∀ content composer xs, jsGet content "conversation" = some (Json.arr xs) →
      ∀ m ∈ Db.processComposerContent content composer, NonBlank m) ∧
    (∀ content composer xs, jsGet content "conversation" = none →
      jsGet content "messages" = some (Json.arr xs) →
      ∀ m ∈ Db.processComposerContent content composer, NonBlank m) ∧
    (∀ obj path m, m ∈ St.findMessagesRecursively obj path → NonBlank m) := by
  refine ⟨?_, ?_, ?_, ?_, ?_, ?_, ?_, ?_, ?_, ?_⟩
  · intro ctx l he m hm
    by_cases hn : ctx = Json.null
    · subst hn; rw [stConvNull] at he; simp at he
    · obtain ⟨l', he', hs'⟩ := extractFromConversation_ok ctx hn
      rw [he'] at he
      injection he with h
      subst h
      exact hs' m hm
  · intro ctx l he m hm
    by_cases hn : ctx = Json.null
    · subst hn; rw [stBubblesNull] at he; simp at he
    · obtain ⟨l', he', hs'⟩ := extractFromBubbles_ok ctx hn
      rw [he'] at he
      injection he with h
      subst h
      exact hs' m hm
  · intro ctx l he m hm
    by_cases hn : ctx = Json.null
    · subst hn; rw [stMsgsHistNull] at he; simp at he
    · obtain ⟨l', he', hs'⟩ := extractFromMessagesOrHistory_ok ctx hn
      rw [he'] at he
      injection he with h
      subst h
      exact hs' m hm
  · intro ctx l he m hm
    obtain ⟨l', he', hs'⟩ := extractFromArrayContext_ok ctx
    rw [he'] at he
    injection he with h
    subst h
    exact hs' m hm
  · intro ctx l he m hm
    by_cases hn : ctx = Json.null
    · subst hn; rw [stCursorNull] at he; simp at he
    · obtain ⟨l', he', hs'⟩ := extractFromCursorSpecific_ok ctx hn
      rw [he'] at he
      injection he with h
      subst h
      exact hs' m hm
  · intro ctx xs l hch he m hm
    obtain ⟨fs, hfs⟩ := jsGet_some_obj hch
    have hn : ctx ≠ Json.null := by rw [hfs]; intro h; cases h
    unfold St.extractFromChatHistory at he
    rw [jsGetFieldE_ok hn] at he
    simp only [bind, Except.bind] at he
    rw [hch] at he
    dsimp only at he
    injection he with h
    subst h
    by_cases hl : (mapFilterCatch St.mapMsgCH xs).length > 0
    · rw [if_pos hl] at hm
      exact mapFilterCatch_sound _ _ m hm
    · rw [if_neg hl] at hm
      simp at hm
  · exact fun data m hm => processChatData_nonblank data m hm
  · exact fun c comp xs h m hm => processComposerContent_conv_nb c comp xs h m hm
  · exact fun c comp xs hc h m hm => processComposerContent_msgs_nb c comp xs hc h m hm
  · exact fun obj path m hm => (findRec_invariant.1 obj path).2 m hm

/-- C1 (counterexample): the single-text fallbacks of `processLocalContent`
and `processComposerContent` surface whitespace-only content verbatim —
neither fallback trims before deciding to surface. -/
theorem spec_C1_blank_fallback_cex :
    Db.processLocalContent (Json.obj [("text", jstr "   ")]) =
      [⟨jstr "user", jstr "   ", none⟩] ∧
    jsTrim "   ".toList = [] ∧
    Db.processComposerContent (Json.obj [("text", jstr " ")]) (Json.obj []) =
      [⟨jstr "user", jstr " ", none⟩] ∧
    jsTrim " ".toList = [] := by
  refine ⟨rfl, by decide, rfl, by decide⟩

/-- C1 (witness): the conversation parser applied to a concrete context. -/
theorem spec_C1_parsers_drop_blank_witness :
    St.extractFromConversation (Json.obj [("conversation", Json.arr [msgU])]) =
      Except.ok [fmU] ∧ NonBlank fmU :=
  ⟨rfl,
   spec_C1_parsers_drop_blank.1 (Json.obj [("conversation", Json.arr [msgU])])
     [fmU] rfl fmU (List.mem_singleton.mpr rfl)⟩

/-- C3: the depth guard of `findMessagesRecursively` counts only
dot-separated path segments.  Array descent appends `"[i]"` (no dot), so
a conversation nested under 14 array levels is still found, while
object-property descent adds a dot per level and is cut off beyond 10
segments. -/
theorem spec_C3_depth_guard :
    St.findMessagesRecursively (deepNest 14) "root".toList = [fmU, fmA] ∧
    St.findMessagesRecursively (objNest 11) "root".toList = [] :=
  ⟨deepNest_found 14 _ (by decide), objNest_blocked 11 _ (by decide)⟩

/-- C4: the recursive search never returns a single-element list — its
result is empty or has at least two messages. -/
theorem spec_C4_no_singleton :
    ∀ obj path, St.findMessagesRecursively obj path = [] ∨
      2 ≤ (St.findMessagesRecursively obj path).length := by
  intro obj path
  have h := (findRec_invariant.1 obj path).1
  rcases Nat.lt_or_ge (St.findMessagesRecursively obj path).length 2 with hl | hl
  · left
    have hz : (St.findMessagesRecursively obj path).length = 0 := by omega
    exact List.length_eq_zero.mp hz
  · right
    exact hl

/-- C9: the structural `extractConversation` is total — it returns a
message list (never an error) on every input, and an empty list on every
falsy (absent/null/primitive-falsy) context. -/
theorem spec_C9_structural_total :
    (∀ ctx, ∃ msgs, St.extractConversation ctx = Except.ok msgs) ∧
    (∀ ctx, jsTruthy ctx = false → St.extractConversation ctx = Except.ok []) := by
  refine ⟨extractConversationSt_total, ?_⟩
  intro ctx h
  unfold St.extractConversation
  rw [if_pos (by simp [h])]
  rfl

/-- C9 (witness). -/
theorem spec_C9_witness :
    jsTruthy Json.null = false ∧
    St.extractConversation Json.null = Except.ok [] ∧
    ∃ msgs, St.extractConversation (Json.obj [("foo", Json.num 1)]) = Except.ok msgs :=
  ⟨rfl, spec_C9_structural_total.2 Json.null rfl, spec_C9_structural_total.1 _⟩

/-- C10: the chat-history and bubbles mappers compute
`msg.role || (msg.isUser ? 'user' : 'assistant')`: a truthy role value is
surfaced verbatim (even when non-canonical), and a record with no truthy
role and falsy `isUser` is tagged `assistant` — not the classifier
default `user`.  The final two conjuncts evaluate the full parsers of
the db snapshot on concrete fixtures. -/
theorem spec_C10_verbatim_roles :
    (∀ msg j, msg ≠ Json.null → jsGet msg "role" = some j → jsTruthy j = true →
      St.mapMsgCH msg = Except.ok ⟨j, chCoerceContent msg, none⟩) ∧
    (∀ msg, msg ≠ Json.null → jsTruthyO (jsGet msg "role") = false →
      jsTruthyO (jsGet msg "isUser") = false →
      St.mapMsgCH msg = Except.ok ⟨jstr "assistant", chCoerceContent msg, none⟩) ∧
    (∀ b j, b ≠ Json.null → jsGet b "role" = some j → jsTruthy j = true →
      St.mapMsgBubble b = Except.ok ⟨j, Json.str (coerceContentFull b), none⟩) ∧
    (∀ b, b ≠ Json.null → jsTruthyO (jsGet b "role") = false →
      jsTruthyO (jsGet b "isUser") = false →
      St.mapMsgBubble b = Except.ok ⟨jstr "assistant", Json.str (coerceContentFull b), none⟩) ∧
    (Db.extractFromChatHistory (Json.obj [("chatHistory", Json.arr
        [Json.obj [("role", jstr "banana"), ("content", jstr "x")],
         Json.obj [("isUser", Json.bool false), ("content", jstr "y")]])]) =
      Except.ok [⟨jstr "banana", jstr "x", none⟩, ⟨jstr "assistant", jstr "y", none⟩]) ∧
    (Db.extractFromBubbles (Json.obj [("bubbles", Json.arr
        [Json.obj [("content", jstr "z")],
         Json.obj [("role", jstr "weird"), ("content", jstr "w")]])]) =
      Except.ok [⟨jstr "assistant", jstr "z", none⟩, ⟨jstr "weird", jstr "w", none⟩]) := by
  refine ⟨?_, ?_, ?_, ?_, rfl, rfl⟩
  · intro msg j hn hr ht
    unfold St.mapMsgCH
    rw [jsGetFieldE_ok hn]
    simp only [bind, Except.bind, hr]
    simp [ht, pure, Except.pure]
  · intro msg hn hr hu
    unfold St.mapMsgCH
    rw [jsGetFieldE_ok hn]
    simp only [bind, Except.bind]
    cases hj : jsGet msg "role" with
    | none => simp [hu, pure, Except.pure]
    | some rv =>
      rw [hj] at hr
      simp only [jsTruthyO] at hr
      simp [hr, hu, pure, Except.pure]
  · intro b j hn hr ht
    unfold St.mapMsgBubble
    rw [jsGetFieldE_ok hn]
    simp only [bind, Except.bind, hr]
    simp [ht, pure, Except.pure]
  · intro b hn hr hu
    unfold St.mapMsgBubble
    rw [jsGetFieldE_ok hn]
    simp only [bind, Except.bind]
    cases hj : jsGet b "role" with
    | none => simp [hu, pure, Except.pure]
    | some rv =>
      rw [hj] at hr
      simp only [jsTruthyO] at hr
      simp [hr, hu, pure, Except.pure]

/-- C10 (witness). -/
theorem spec_C10_verbatim_roles_witness :
    St.mapMsgCH (Json.obj [("role", jstr "banana"), ("content", jstr "x")]) =
      Except.ok ⟨jstr "banana",
        chCoerceContent (Json.obj [("role", jstr "banana"), ("content", jstr "x")]),
        none⟩ ∧
    St.mapMsgCH (Json.obj [("content", jstr "y")]) =
      Except.ok ⟨jstr "assistant",
        chCoerceContent (Json.obj [("content", jstr "y")]), none⟩ :=
  ⟨spec_C10_verbatim_roles.1 _ _ (fun h => Json.noConfusion h) rfl rfl,
   spec_C10_verbatim_roles.2.1 _ (fun h => Json.noConfusion h) rfl rfl⟩

/-- C6: tie-break rules of `processChatData` — a non-empty `tabs` array
uses the **last** tab's `conversation`; absent `tabs`, a `chats` map uses
the **first** key's `messages`. -/
theorem spec_C6_tie_breaks :
    (∀ data ts tab conv, jsGet data "tabs" = some (Json.arr ts) →
      ts.getLast? = some tab →
      jsGet tab "conversation" = some (Json.arr conv) →
      Db.processChatData data = runCatch (Db.chatMessagesFromArray conv)) ∧
    (∀ data k chat rest ms, jsGet data "tabs" = none →
      jsGet data "chats" = some (Json.obj ((k, chat) :: rest)) →
      jsGet chat "messages" = some (Json.arr ms) →
      Db.processChatData data = runCatch (Db.chatMessagesFromArray ms)) := by
  constructor
  · intro data ts tab conv htabs hlast hconv
    obtain ⟨fs, hfs⟩ := jsGet_some_obj htabs
    obtain ⟨tfs, htfs⟩ := jsGet_some_obj hconv
    have htne : tab ≠ Json.null := by rw [htfs]; intro h; cases h
    have hts : ts.length > 0 := by
      cases ts with
      | nil => simp at hlast
      | cons a as => simp
    unfold Db.processChatData
    rw [if_neg (by simp [hfs, jsTruthy]), htabs]
    dsimp only
    rw [if_pos hts, hlast]
    dsimp only
    rw [jsGetFieldE_ok htne]
    simp only [bind, Except.bind, hconv]
  · intro data k chat rest ms htabs hchats hms
    obtain ⟨fs, hfs⟩ := jsGet_some_obj hchats
    have hcne : chat ≠ Json.null := by
      obtain ⟨cfs, hcfs⟩ := jsGet_some_obj hms
      rw [hcfs]
      intro h
      cases h
    unfold Db.processChatData
    rw [if_neg (by simp [hfs, jsTruthy]), htabs]
    dsimp only
    unfold Db.pcdChatsBranch
    simp only [hchats]
    rw [if_pos (by simp [jsTruthy, isObjLike])]
    unfold Db.pcdChatsInner
    rw [jsGetFieldE_ok hcne]
    simp only [bind, Except.bind, hms]

/-- C6 (witness): concrete fixtures with two tabs (last wins) and two
chat keys (first wins). -/
theorem spec_C6_tie_breaks_witness :
    Db.processChatData (Json.obj [("tabs", Json.arr
        [Json.obj [("conversation", Json.arr [msgA])],
         Json.obj [("conversation", Json.arr [msgU, msgA])]])]) =
      runCatch (Db.chatMessagesFromArray [msgU, msgA]) ∧
    Db.processChatData (Json.obj [("chats", Json.obj
        [("first", Json.obj [("messages", Json.arr [msgU])]),
         ("second", Json.obj [("messages", Json.arr [msgA])])])]) =
      runCatch (Db.chatMessagesFromArray [msgU]) ∧
    runCatch (Db.chatMessagesFromArray [msgU, msgA]) = [fmU, fmA] ∧
    runCatch (Db.chatMessagesFromArray [msgU]) = [fmU] :=
  ⟨spec_C6_tie_breaks.1 _ [Json.obj [("conversation", Json.arr [msgA])],
      Json.obj [("conversation", Json.arr [msgU, msgA])]]
      (Json.obj [("conversation", Json.arr [msgU, msgA])]) [msgU, msgA] rfl rfl rfl,
   spec_C6_tie_breaks.2 _ "first" (Json.obj [("messages", Json.arr [msgU])])
      [("second", Json.obj [("messages", Json.arr [msgA])])] [msgU] rfl rfl rfl,
   rfl, rfl⟩

/-- Modelled from the spec (amended selection rule): the first element of
the list attaining the maximal key — used to characterize the head of
the stable descending sort. -/
def firstMaxByKey {α : Type} (key : α → Int) : List α → Option α
  | [] => none
  | x :: xs =>
    match firstMaxByKey key xs with
    | none => some x
    | some m => some (if key m > key x then m else x)

lemma firstMaxByKey_none {α : Type} (key : α → Int) :
    ∀ l : List α, firstMaxByKey key l = none ↔ l = [] := by
  intro l
  cases l with
  | nil => simp [firstMaxByKey]
  | cons x xs =>
    simp only [firstMaxByKey]
    cases firstMaxByKey key xs <;> simp

lemma sortByKeyDesc_head {α : Type} (key : α → Int) :
    ∀ l : List α, (sortByKeyDesc key l).head? = firstMaxByKey key l := by
  intro l
  induction l with
  | nil => rfl
  | cons x xs ih =>
    simp only [sortByKeyDesc, firstMaxByKey]
    cases hs : sortByKeyDesc key xs with
    | nil =>
      rw [hs] at ih
      simp only [List.head?] at ih
      rw [← ih]
      rfl
    | cons y ys =>
      rw [hs] at ih
      simp only [List.head?] at ih
      rw [← ih]
      simp only [insertByKeyDesc]
      by_cases hk : key y ≤ key x
      · rw [if_pos hk]
        simp only [List.head?]
        rw [if_neg (by omega)]
      · rw [if_neg hk]
        simp only [List.head?]
        rw [if_pos (by omega)]

lemma firstMaxByKey_spec {α : Type} (key : α → Int) :
    ∀ (l : List α) (m : α), firstMaxByKey key l = some m →
      m ∈ l ∧ ∀ x ∈ l, key x ≤ key m := by
  intro l
  induction l with
  | nil => intro m h; simp [firstMaxByKey] at h
  | cons x xs ih =>
    intro m h
    simp only [firstMaxByKey] at h
    cases hf : firstMaxByKey key xs with
    | none =>
      rw [hf] at h
      cases h
      have hxs : xs = [] := (firstMaxByKey_none key xs).mp hf
      subst hxs
      simp
    | some m' =>
      rw [hf] at h
      obtain ⟨hm', hbound⟩ := ih m' hf
      cases h
      by_cases hk : key m' > key x
      · rw [if_pos hk]
        refine ⟨List.mem_cons_of_mem x hm', ?_⟩
        intro z hz
        rcases List.mem_cons.mp hz with hz | hz
        · subst hz; omega
        · exact hbound z hz
      · rw [if_neg hk]
        refine ⟨List.mem_cons_self x xs, ?_⟩
        intro z hz
        rcases List.mem_cons.mp hz with hz | hz
        · subst hz; omega
        · have := hbound z hz; omega

/-- C7 (amended): the resolver's selection is the **first** composer
attaining the maximal *coalesced* `lastUpdatedAt` (missing field treated
as `0`, ties and missing-vs-`0` broken by original order); the selected
composer's coalesced key bounds every candidate's; and when the global
store has no record under the selected composer's key, `findComposerData`
returns the empty conversation. -/
theorem spec_C7_composer_selection :
    (∀ cs, 2 ≤ (cs.filter (fun c => jsTruthy c && isObjLike c)).length →
      Db.selectRecentComposer cs =
        firstMaxByKey Db.composerKey
          (cs.filter (fun c => jsTruthy c && isObjLike c))) ∧
    (∀ cs c, Db.selectRecentComposer cs = some c →
      ∀ x ∈ cs.filter (fun c => jsTruthy c && isObjLike c),
        Db.composerKey x ≤ Db.composerKey c) ∧
    (∀ (env : DbEnv) (wsId : List Char) (idx : Json) (cs : List Json)
        (c cid : Json),
      env.rootExists = true →
      Db.dirDbExists env wsId = true →
      env.hasItemTable = true →
      env.items "composer.composerData".toList = some (some idx) →
      Db.resolveComposerList idx = some cs →
      Db.selectRecentComposer cs = some c →
      Db.composerIdOf c = some cid →
      jsTruthy cid = true →
      env.globalDbExists = true →
      env.globalItems (Db.composerLookupKey cid) = none →
      Db.findComposerData env wsId = []) := by
  refine ⟨?_, ?_, ?_⟩
  · intro cs _
    unfold Db.selectRecentComposer Db.sortedComposers
    exact sortByKeyDesc_head Db.composerKey _
  · intro cs c h x hx
    unfold Db.selectRecentComposer Db.sortedComposers at h
    rw [sortByKeyDesc_head Db.composerKey] at h
    exact (firstMaxByKey_spec Db.composerKey _ c h).2 x hx
  · intro env wsId idx cs c cid hroot hdb hit hkey hres hsel hcid htr hglob hmiss
    unfold Db.findComposerData
    unfold Db.getCursorWorkspacePath
    rw [if_pos hroot]
    simp only [bind, Except.bind]
    rw [if_neg (by simp [hdb])]
    rw [if_pos hit]
    simp only [Db.probeKeys, Db.composerKeys, hkey]
    simp only [hres, hsel, hcid]
    rw [if_pos (by simp [jsTruthyO, htr])]
    rw [if_neg (by simp [hglob])]
    rw [hmiss]
    rfl

/-- A composer carrying a (negative) `lastUpdatedAt`. -/
def caComposer : Json :=
  Json.obj [("composerId", jstr "a"), ("lastUpdatedAt", Json.num (-5))]

/-- A composer lacking `lastUpdatedAt`. -/
def cbComposer : Json := Json.obj [("composerId", jstr "b")]

/-- C7 (counterexample): a composer *lacking* `lastUpdatedAt` is coerced
to key `0` by `(… || 0)` and therefore sorts **before** a composer whose
actual `lastUpdatedAt` is negative — it is not "sorted last", and the
selected composer is not the one with the numerically greatest
`lastUpdatedAt` field. -/
theorem spec_C7_missing_field_cex :
    Db.selectRecentComposer [caComposer, cbComposer] = some cbComposer ∧
    jsGet cbComposer "lastUpdatedAt" = none ∧
    jsGet caComposer "lastUpdatedAt" = some (Json.num (-5)) ∧
    Db.composerIdOf cbComposer = some (jstr "b") ∧
    Db.composerIdOf caComposer = some (jstr "a") ∧
    jstr "b" ≠ jstr "a" := by
  refine ⟨rfl, rfl, rfl, rfl, rfl, ?_⟩
  intro h
  injection h with h2
  exact absurd h2 (by decide)

/-- The composer index stored under the first probed key. -/
def c7Idx : Json := Json.obj [("allComposers", Json.arr [caComposer, cbComposer])]

/-- A concrete environment whose global store lacks the selected
composer's record. -/
def c7Env : DbEnv where
  rootExists := true
  dirs := [("ws1".toList, some 5)]
  hasItemTable := true
  items := fun k =>
    if k = "composer.composerData".toList then some (some c7Idx) else none
  likeScanChat := []
  hasCursorKV := false
  kvScan := []
  likeScanComposer := []
  globalDbExists := true
  globalItems := fun _ => none

/-- C7 (witness). -/
theorem spec_C7_composer_selection_witness :
    Db.selectRecentComposer [caComposer, cbComposer] =
      firstMaxByKey Db.composerKey
        ([caComposer, cbComposer].filter (fun c => jsTruthy c && isObjLike c)) ∧
    Db.findComposerData c7Env "ws1".toList = [] :=
  ⟨spec_C7_composer_selection.1 [caComposer, cbComposer] (by decide),
   spec_C7_composer_selection.2.2 c7Env "ws1".toList c7Idx
     [caComposer, cbComposer] cbComposer (jstr "b")
     rfl rfl rfl rfl rfl rfl rfl rfl rfl rfl⟩

/-- An environment whose storage root is missing. -/
def envNoRoot : DbEnv where
  rootExists := false
  dirs := []
  hasItemTable := false
  items := fun _ => none
  likeScanChat := []
  hasCursorKV := false
  kvScan := []
  likeScanComposer := []
  globalDbExists := false
  globalItems := fun _ => none

/-- C8 (counterexample): with the storage root missing, the workspace
lookup raises a descriptive error internally, yet the db-path
`extractConversation` returns the empty conversation — no failure reaches
its caller. -/
theorem spec_C8_swallowed_cex :
    Db.findRecentWorkspaceId envNoRoot =
      Except.error "未找到工作区存储路径: workspaceStorage".toList ∧
    Db.extractConversation envNoRoot = [] :=
  ⟨rfl, rfl⟩

/-- C8 (amended): the three environment errors are raised with
descriptive messages by `getCursorWorkspacePath`/`findRecentWorkspaceId`,
but the db-path `extractConversation` catches every such error and
converts it into an empty conversation. -/
theorem spec_C8_error_containment :
    (∀ env : DbEnv, env.rootExists = false →
      Db.getCursorWorkspacePath env =
        Except.error "未找到工作区存储路径: workspaceStorage".toList ∧
      Db.findRecentWorkspaceId env =
        Except.error "未找到工作区存储路径: workspaceStorage".toList) ∧
    (∀ env : DbEnv, env.rootExists = true → env.dirs = [] →
      Db.findRecentWorkspaceId env = Except.error "未找到任何工作区目录".toList) ∧
    (∀ env : DbEnv, env.rootExists = true →
      env.dirs.filter (fun d => d.2.isSome) = [] → env.dirs.length ≠ 0 →
      Db.findRecentWorkspaceId env =
        Except.error "未找到任何包含state.vscdb的工作区目录".toList) ∧
    (∀ (env : DbEnv) (e : JsErr), Db.findRecentWorkspaceId env = Except.error e →
      Db.extractConversation env = []) := by
  refine ⟨?_, ?_, ?_, ?_⟩
  · intro env h
    have hg : Db.getCursorWorkspacePath env =
        Except.error "未找到工作区存储路径: workspaceStorage".toList := by
      unfold Db.getCursorWorkspacePath
      rw [if_neg (by simp [h])]
    refine ⟨hg, ?_⟩
    unfold Db.findRecentWorkspaceId
    rw [hg]
    rfl
  · intro env hroot hdirs
    unfold Db.findRecentWorkspaceId
    unfold Db.getCursorWorkspacePath
    rw [if_pos hroot]
    simp only [bind, Except.bind]
    rw [if_pos (by simp [hdirs])]
  · intro env hroot hvalid hne
    unfold Db.findRecentWorkspaceId
    unfold Db.getCursorWorkspacePath
    rw [if_pos hroot]
    simp only [bind, Except.bind]
    rw [if_neg hne]
    rw [hvalid]
    rfl
  · intro env e h
    unfold Db.extractConversation
    rw [h]
    rfl

/-- C8 (witness). -/
theorem spec_C8_error_containment_witness :
    Db.getCursorWorkspacePath envNoRoot =
      Except.error "未找到工作区存储路径: workspaceStorage".toList ∧
    Db.findRecentWorkspaceId envNoRoot =
      Except.error "未找到工作区存储路径: workspaceStorage".toList ∧
    Db.extractConversation envNoRoot = [] :=
  ⟨(spec_C8_error_containment.1 envNoRoot rfl).1,
   (spec_C8_error_containment.1 envNoRoot rfl).2,
   spec_C8_error_containment.2.2.2 envNoRoot _
     (spec_C8_error_containment.1 envNoRoot rfl).2⟩

/-- C2 (counterexample): the structural snapshot's `determineRole` has no
numeric `type` aliases — `{type: 2}` yields `user`, while the db
snapshot's classifier yields `assistant`. -/
theorem spec_C2_numeric_alias_cex :
    St.determineRoleE (Json.obj [("type", Json.num 2)]) =
      Except.ok "user".toList ∧
    Db.determineRoleE (Json.obj [("type", Json.num 2)]) =
      Except.ok "assistant".toList ∧
    "user".toList ≠ "assistant".toList :=
  ⟨rfl, rfl, by decide⟩

/-- C2 (amended): both classifiers are total over message records and
follow the precedence role → isUser → type → sender → default `user`;
an explicit canonical role wins regardless of conflicting fields; the
numeric `type` aliases `1`→user / `2`→assistant exist **only** in the db
snapshot's classifier, the structural one treating numeric `type` values
as no signal. -/
theorem spec_C2_role_precedence :
    (∀ fs, ∃ r, Db.determineRoleE (Json.obj fs) = Except.ok r) ∧
    (∀ fs, ∃ r, St.determineRoleE (Json.obj fs) = Except.ok r) ∧
    (∀ fs s, (s = "user".toList ∨ s = "assistant".toList ∨ s = "system".toList ∨
        s = "function".toList) → lookupField fs "role" = some (Json.str s) →
      Db.determineRoleE (Json.obj fs) = Except.ok s ∧
      St.determineRoleE (Json.obj fs) = Except.ok s) ∧
    (∀ fs, roleIsCanonical (lookupField fs "role") = false →
      (lookupField fs "isUser" = some (Json.bool true) →
        Db.determineRoleE (Json.obj fs) = Except.ok "user".toList ∧
        St.determineRoleE (Json.obj fs) = Except.ok "user".toList) ∧
      (lookupField fs "isUser" = some (Json.bool false) →
        Db.determineRoleE (Json.obj fs) = Except.ok "assistant".toList ∧
        St.determineRoleE (Json.obj fs) = Except.ok "assistant".toList)) ∧
    (∀ fs, roleIsCanonical (lookupField fs "role") = false →
      optIsTrue (lookupField fs "isUser") = false →
      optIsFalse (lookupField fs "isUser") = false →
      (lookupField fs "type" = some (jstr "human") →
        Db.determineRoleE (Json.obj fs) = Except.ok "user".toList ∧
        St.determineRoleE (Json.obj fs) = Except.ok "user".toList) ∧
      (lookupField fs "type" = some (jstr "ai") →
        Db.determineRoleE (Json.obj fs) = Except.ok "assistant".toList ∧
        St.determineRoleE (Json.obj fs) = Except.ok "assistant".toList) ∧
      (lookupField fs "type" = some (jstr "bot") →
        Db.determineRoleE (Json.obj fs) = Except.ok "assistant".toList ∧
        St.determineRoleE (Json.obj fs) = Except.ok "assistant".toList) ∧
      (lookupField fs "type" = some (Json.num 1) →
        Db.determineRoleE (Json.obj fs) = Except.ok "user".toList) ∧
      (lookupField fs "type" = some (Json.num 2) →
        Db.determineRoleE (Json.obj fs) = Except.ok "assistant".toList) ∧
      (∀ n, lookupField fs "type" = some (Json.num n) →
        lookupField fs "sender" = none →
        St.determineRoleE (Json.obj fs) = Except.ok "user".toList)) ∧
    (∀ fs, roleIsCanonical (lookupField fs "role") = false →
      optIsTrue (lookupField fs "isUser") = false →
      optIsFalse (lookupField fs "isUser") = false →
      lookupField fs "type" = none →
      (lookupField fs "sender" = some (jstr "human") →
        Db.determineRoleE (Json.obj fs) = Except.ok "user".toList ∧
        St.determineRoleE (Json.obj fs) = Except.ok "user".toList) ∧
      (lookupField fs "sender" = some (jstr "ai") →
        Db.determineRoleE (Json.obj fs) = Except.ok "assistant".toList ∧
        St.determineRoleE (Json.obj fs) = Except.ok "assistant".toList)) ∧
    (∀ fs, lookupField fs "role" = none → lookupField fs "isUser" = none →
      lookupField fs "type" = none → lookupField fs "sender" = none →
      Db.determineRoleE (Json.obj fs) = Except.ok "user".toList ∧
      St.determineRoleE (Json.obj fs) = Except.ok "user".toList) := by
  have hdb : ∀ fs, Db.determineRoleE (Json.obj fs) =
      Except.ok (Db.determineRoleCore (Json.obj fs)) := fun _ => rfl
  have hst : ∀ fs, St.determineRoleE (Json.obj fs) =
      Except.ok (St.determineRoleCore (Json.obj fs)) := fun _ => rfl
  refine ⟨fun fs => ⟨_, rfl⟩, fun fs => ⟨_, rfl⟩, ?_, ?_, ?_, ?_, ?_⟩
  · intro fs s hc h
    constructor
    · rw [hdb]
      unfold Db.determineRoleCore
      simp only [jsGet, h]
      rw [if_pos (by rcases hc with h | h | h | h <;> simp [h])]
    · rw [hst]
      unfold St.determineRoleCore
      simp only [jsGet, h]
      rw [if_pos (by rcases hc with h | h | h | h <;> simp [h])]
  · intro fs h1
    constructor
    · intro h2
      constructor
      · rw [hdb, db_rest_of_roleNC (by simpa [jsGet] using h1)]
        unfold Db.determineRoleCore.determineRoleRest
        simp [jsGet, h2, optIsTrue]
      · rw [hst, st_rest_of_roleNC (by simpa [jsGet] using h1)]
        unfold St.determineRoleCore.determineRoleRest
        simp [jsGet, h2, optIsTrue]
    · intro h2
      constructor
      · rw [hdb, db_rest_of_roleNC (by simpa [jsGet] using h1)]
        unfold Db.determineRoleCore.determineRoleRest
        simp [jsGet, h2, optIsTrue, optIsFalse]
      · rw [hst, st_rest_of_roleNC (by simpa [jsGet] using h1)]
        unfold St.determineRoleCore.determineRoleRest
        simp [jsGet, h2, optIsTrue, optIsFalse]
  · intro fs h1 h2 h3
    refine ⟨?_, ?_, ?_, ?_, ?_, ?_⟩
    · intro h4
      constructor
      · rw [hdb, db_rest_of_roleNC (by simpa [jsGet] using h1)]
        unfold Db.determineRoleCore.determineRoleRest
        simp [jsGet, h2, h3, h4, optIsStr, optIsNum, jstr]
      · rw [hst, st_rest_of_roleNC (by simpa [jsGet] using h1)]
        unfold St.determineRoleCore.determineRoleRest
        simp [jsGet, h2, h3, h4, optIsStr, optIsNum, jstr]
    · intro h4
      constructor
      · rw [hdb, db_rest_of_roleNC (by simpa [jsGet] using h1)]
        unfold Db.determineRoleCore.determineRoleRest
        simp [jsGet, h2, h3, h4, optIsStr, optIsNum, jstr]
      · rw [hst, st_rest_of_roleNC (by simpa [jsGet] using h1)]
        unfold St.determineRoleCore.determineRoleRest
        simp [jsGet, h2, h3, h4, optIsStr, optIsNum, jstr]
    · intro h4
      constructor
      · rw [hdb, db_rest_of_roleNC (by simpa [jsGet] using h1)]
        unfold Db.determineRoleCore.determineRoleRest
        simp [jsGet, h2, h3, h4, optIsStr, optIsNum, jstr]
      · rw [hst, st_rest_of_roleNC (by simpa [jsGet] using h1)]
        unfold St.determineRoleCore.determineRoleRest
        simp [jsGet, h2, h3, h4, optIsStr, optIsNum, jstr]
    · intro h4
      rw [hdb, db_rest_of_roleNC (by simpa [jsGet] using h1)]
      unfold Db.determineRoleCore.determineRoleRest
      simp [jsGet, h2, h3, h4, optIsStr, optIsNum, jstr]
    · intro h4
      rw [hdb, db_rest_of_roleNC (by simpa [jsGet] using h1)]
      unfold Db.determineRoleCore.determineRoleRest
      simp [jsGet, h2, h3, h4, optIsStr, optIsNum, jstr]
    · intro n h4 h5
      rw [hst, st_rest_of_roleNC (by simpa [jsGet] using h1)]
      unfold St.determineRoleCore.determineRoleRest
      simp [jsGet, h2, h3, h4, h5, optIsStr, optIsNum, jstr]
  · intro fs h1 h2 h3 h4
    constructor
    · intro h5
      constructor
      · rw [hdb, db_rest_of_roleNC (by simpa [jsGet] using h1)]
        unfold Db.determineRoleCore.determineRoleRest
        simp [jsGet, h2, h3, h4, h5, optIsStr, optIsNum, jstr]
      · rw [hst, st_rest_of_roleNC (by simpa [jsGet] using h1)]
        unfold St.determineRoleCore.determineRoleRest
        simp [jsGet, h2, h3, h4, h5, optIsStr, optIsNum, jstr]
    · intro h5
      constructor
      · rw [hdb, db_rest_of_roleNC (by simpa [jsGet] using h1)]
        unfold Db.determineRoleCore.determineRoleRest
        simp [jsGet, h2, h3, h4, h5, optIsStr, optIsNum, jstr]
      · rw [hst, st_rest_of_roleNC (by simpa [jsGet] using h1)]
        unfold St.determineRoleCore.determineRoleRest
        simp [jsGet, h2, h3, h4, h5, optIsStr, optIsNum, jstr]
  · intro fs h1 h2 h3 h4
    constructor
    · rw [hdb, db_rest_of_roleNC (by simp [jsGet, h1, roleIsCanonical])]
      unfold Db.determineRoleCore.determineRoleRest
      simp [jsGet, h1, h2, h3, h4, optIsTrue, optIsFalse, optIsStr, optIsNum]
    · rw [hst, st_rest_of_roleNC (by simp [jsGet, h1, roleIsCanonical])]
      unfold St.determineRoleCore.determineRoleRest
      simp [jsGet, h1, h2, h3, h4, optIsTrue, optIsFalse, optIsStr, optIsNum]

/-- C2 (witness): an explicit `role: "assistant"` beats conflicting
`type`/`sender` signals in both snapshots; a record with no signal
defaults to `user`. -/
theorem spec_C2_role_precedence_witness :
    Db.determineRoleE (Json.obj [("role", jstr "assistant"),
        ("type", Json.num 1), ("sender", jstr "human")]) =
      Except.ok "assistant".toList ∧
    St.determineRoleE (Json.obj [("role", jstr "assistant"),
        ("type", Json.num 1), ("sender", jstr "human")]) =
      Except.ok "assistant".toList ∧
    Db.determineRoleE (Json.obj []) = Except.ok "user".toList ∧
    St.determineRoleE (Json.obj []) = Except.ok "user".toList :=
  ⟨(spec_C2_role_precedence.2.2.1 [("role", jstr "assistant"),
      ("type", Json.num 1), ("sender", jstr "human")] "assistant".toList
      (Or.inr (Or.inl rfl)) rfl).1,
   (spec_C2_role_precedence.2.2.1 [("role", jstr "assistant"),
      ("type", Json.num 1), ("sender", jstr "human")] "assistant".toList
      (Or.inr (Or.inl rfl)) rfl).2,
   (spec_C2_role_precedence.2.2.2.2.2.2 [] rfl rfl rfl rfl).1,
   (spec_C2_role_precedence.2.2.2.2.2.2 [] rfl rfl rfl rfl).2⟩

/-- C5: the truncation policy truncates over-cap string contents to the
cap-length prefix plus the localized marker, leaves everything else
unchanged (and the list length intact), and is idempotent. -/
theorem spec_C5_truncation :
    (∀ msgs r, truncateLongMessages msgs = Except.ok r →
      truncateLongMessages r = Except.ok r) ∧
    (∀ msgs r, truncateLongMessages msgs = Except.ok r → r.length = msgs.length) ∧
    (∀ role ts s, s.length > MAX_LENGTH →
      truncateLongMessages [⟨role, Json.str s, ts⟩] =
        Except.ok [⟨role, Json.str (s.take MAX_LENGTH ++ truncMarker), ts⟩]) ∧
    (∀ role ts s, s.length ≤ MAX_LENGTH →
      truncateLongMessages [⟨role, Json.str s, ts⟩] =
        Except.ok [⟨role, Json.str s, ts⟩]) := by
  refine ⟨truncate_idem, truncate_length, ?_, ?_⟩
  · intro role ts s h
    unfold truncateLongMessages
    rw [List.mapM_cons, truncateOne_str_long role ts s h, List.mapM_nil]
    rfl
  · intro role ts s h
    unfold truncateLongMessages
    rw [List.mapM_cons, truncateOne_str_short role ts s h, List.mapM_nil]
    rfl

/-- C5 (witness): a 100001-character content is truncated; a short one is
unchanged; truncating the result again is a no-op. -/
theorem spec_C5_truncation_witness :
    (List.replicate 100001 'a').length > MAX_LENGTH ∧
    truncateLongMessages [⟨jstr "user", Json.str (List.replicate 100001 'a'), none⟩] =
      Except.ok [⟨jstr "user",
        Json.str ((List.replicate 100001 'a').take MAX_LENGTH ++ truncMarker),
        none⟩] ∧
    ("hi".toList).length ≤ MAX_LENGTH ∧
    truncateLongMessages [⟨jstr "user", Json.str "hi".toList, none⟩] =
      Except.ok [⟨jstr "user", Json.str "hi".toList, none⟩] :=
  ⟨by rw [List.length_replicate]; norm_num [MAX_LENGTH],
   spec_C5_truncation.2.2.1 (jstr "user") none (List.replicate 100001 'a')
     (by rw [List.length_replicate]; norm_num [MAX_LENGTH]),
   by decide,
   spec_C5_truncation.1 [⟨jstr "user", Json.str "hi".toList, none⟩]
     [⟨jstr "user", Json.str "hi".toList, none⟩]
     (spec_C5_truncation.2.2.2 (jstr "user") none "hi".toList (by decide))⟩
